import Mathlib

/-!
Verification development for the tiered conversational-memory subsystem of the
AI-Trip-Planner repository (backend/trip_planner/memory and backend/scripts).

Shallow embedding conventions:
* Python strings are modelled as `List Char` where character-level processing
  matters (JSON encoding, regex scanning) and as `String` for opaque keys.
* `json.dumps(..., ensure_ascii=False)` with the default separators `", "` and
  `": "` is modelled by `dumps`; `json.loads` by `loads`, a parser for exactly
  the canonical form `dumps` emits (the intra-session store only ever parses
  strings it produced with `dumps`, so the restriction is faithful there).
  Numeric JSON payloads (e.g. `created_at` timestamps) are modelled as
  integers.
* A Redis instance is a map from keys to string lists plus streams; an
  unavailable backend is `none` (the connection managers return a null client
  on connection failure and every store checks for it).
* MongoDB documents are finite association lists of BSON-like values and
  `update_one` is modelled with MongoDB's actual update-operator semantics,
  including the server-side rejection of update documents that mention the
  same field path in two update operators (error 40, ConflictingUpdateOperators,
  e.g. a path occurring in both `$inc` and `$setOnInsert`); pymongo surfaces
  that rejection as an exception, which the stores catch.
* Wall-clock times are passed in as explicit integer parameters; the embedder
  and the vector-similarity function are explicit function parameters.
-/

/-- Left curly brace character (escaped code point). -/
def lbrace : Char := '\x7b'

/-- Right curly brace character (escaped code point). -/
def rbrace : Char := '\x7d' 

/-- ASCII decimal digit test (Python `[0-9]`). -/
def isDigitC (c : Char) : Bool := 48 ≤ c.toNat && c.toNat ≤ 57

/-- Decimal digit character for a value below ten. -/
def digitChar (n : Nat) : Char :=
  match n with
  | 0 => '0' | 1 => '1' | 2 => '2' | 3 => '3' | 4 => '4'
  | 5 => '5' | 6 => '6' | 7 => '7' | 8 => '8' | _ => '9'

/-- Lower-case hexadecimal digit character for a value below sixteen,
as emitted by Python's `\u00XX` escapes. -/
def hexDigitChar (n : Nat) : Char :=
  match n with
  | 0 => '0' | 1 => '1' | 2 => '2' | 3 => '3' | 4 => '4'
  | 5 => '5' | 6 => '6' | 7 => '7' | 8 => '8' | 9 => '9'
  | 10 => 'a' | 11 => 'b' | 12 => 'c' | 13 => 'd' | 14 => 'e' | _ => 'f'

/-- Numeric value of a decimal digit character. -/
def digitVal (c : Char) : Nat := c.toNat - 48

/-- Numeric value of a hexadecimal digit character, if it is one. -/
def hexVal (c : Char) : Option Nat :=
  if 48 ≤ c.toNat && c.toNat ≤ 57 then some (c.toNat - 48)
  else if 97 ≤ c.toNat && c.toNat ≤ 102 then some (c.toNat - 97 + 10)
  else if 65 ≤ c.toNat && c.toNat ≤ 70 then some (c.toNat - 65 + 10)
  else none

/-- Fuel-driven digit expansion; any fuel above the value itself is
enough (structural recursion so that concrete inputs evaluate in the
kernel). -/
def natDigitsGo : Nat → Nat → List Char
  | 0, _ => []
  | fuel + 1, n =>
    if n < 10 then [digitChar n]
    else natDigitsGo fuel (n / 10) ++ [digitChar (n % 10)]

/-- Decimal digit list of a natural number, most significant first
(Python `repr` of a non-negative `int`). -/
def natDigits (n : Nat) : List Char := natDigitsGo (n + 1) n

/-- Decimal representation of an integer (Python `repr` of an `int`). -/
def intRepr (n : Int) : List Char :=
  if n < 0 then '-' :: natDigits (-n).toNat else natDigits n.toNat

/-- Value of a list of decimal digit characters. -/
def digitsToNat (ds : List Char) : Nat := ds.foldl (fun a c => a * 10 + digitVal c) 0

/-- JSON scalar values as they occur in the flat message dictionaries the
call sites build (`session.py`, `cli/main.py`): strings, numbers, booleans,
null.  Numbers are modelled as integers. -/
inductive JVal where
  | jnull : JVal
  | jbool (b : Bool) : JVal
  | jnum (n : Int) : JVal
  | jstr (s : List Char) : JVal
deriving DecidableEq, Repr

/-- Message dictionary: an insertion-ordered flat JSON object, as passed to
`save_message` by the call sites. -/
abbrev Message := List (String × JVal)

/-- Escape of one character inside a JSON string, per Python's `json`
encoder with `ensure_ascii=False`: only `"`, `\` and control characters
are escaped (short escapes where they exist, `\u00XX` otherwise). -/
def escapeChar (c : Char) : List Char :=
  if c = '"' then ['\\', '"']
  else if c = '\\' then ['\\', '\\']
  else if c = '\n' then ['\\', 'n']
  else if c = '\r' then ['\\', 'r']
  else if c = '\t' then ['\\', 't']
  else if c.toNat = 8 then ['\\', 'b']
  else if c.toNat = 12 then ['\\', 'f']
  else if c.toNat < 32 then
    ['\\', 'u', '0', '0', hexDigitChar (c.toNat / 16), hexDigitChar (c.toNat % 16)]
  else [c]

/-- Escape every character of a string body. -/
def escapeList : List Char → List Char
  | [] => []
  | c :: rest => escapeChar c ++ escapeList rest

/-- JSON encoding of a string, double quotes included. -/
def encodeStr (s : List Char) : List Char := '"' :: escapeList s ++ ['"']

/-- JSON encoding of a scalar value. -/
def encodeJVal : JVal → List Char
  | .jnull => ['n', 'u', 'l', 'l']
  | .jbool true => ['t', 'r', 'u', 'e']
  | .jbool false => ['f', 'a', 'l', 's', 'e']
  | .jnum n => intRepr n
  | .jstr s => encodeStr s

/-- JSON encoding of one `key: value` pair (Python's default `": "`
key separator). -/
def encodeField (k : String) (v : JVal) : List Char :=
  encodeStr k.toList ++ ':' :: ' ' :: encodeJVal v

/-- JSON encoding of the fields of an object, separated by Python's default
`", "` item separator. -/
def encodeFields : Message → List Char
  | [] => []
  | [(k, v)] => encodeField k v
  | (k, v) :: rest => encodeField k v ++ ',' :: ' ' :: encodeFields rest

/-- Model of `json.dumps(message, ensure_ascii=False)` on a flat message
dictionary, braces included. -/
def dumps (m : Message) : List Char := lbrace :: encodeFields m ++ [rbrace]

/-- Inverse of `escapeChar` on a single escape letter (the escapes other
than `\uXXXX`). -/
def unescapeChar (e : Char) : Option Char :=
  if e = '"' then some '"'
  else if e = '\\' then some '\\'
  else if e = '/' then some '/'
  else if e = 'n' then some '\n'
  else if e = 'r' then some '\r'
  else if e = 't' then some '\t'
  else if e = 'b' then some (Char.ofNat 8)
  else if e = 'f' then some (Char.ofNat 12)
  else none

/-- Parse the body of a JSON string up to and including the closing quote,
returning the decoded body and the remaining input.  Surrogate-pair
decoding is omitted: the encoder in this system never emits `\uXXXX`
above `\u001f`. -/
def parseStrBody : Nat → List Char → Option (List Char × List Char)
  | 0, _ => none
  | _ + 1, [] => none
  | fuel + 1, c :: rest =>
    if c = '"' then some ([], rest)
    else if c = '\\' then
      match rest with
      | [] => none
      | e :: r =>
        if e = 'u' then
          match r with
          | h1 :: h2 :: h3 :: h4 :: r2 =>
            match hexVal h1, hexVal h2, hexVal h3, hexVal h4 with
            | some a, some b, some c2, some d =>
              (parseStrBody fuel r2).map
                (fun p => (Char.ofNat (((a * 16 + b) * 16 + c2) * 16 + d) :: p.1, p.2))
            | _, _, _, _ => none
          | _ => none
        else
          match unescapeChar e with
          | some u => (parseStrBody fuel r).map (fun p => (u :: p.1, p.2))
          | none => none
    else (parseStrBody fuel rest).map (fun p => (c :: p.1, p.2))

/-- Greedy parse of a non-empty run of decimal digits. -/
def parseNat (l : List Char) : Option (Nat × List Char) :=
  let ds := l.takeWhile isDigitC
  if ds = [] then none else some (digitsToNat ds, l.dropWhile isDigitC)

/-- Parse one JSON scalar value. -/
def parseJVal (l : List Char) : Option (JVal × List Char) :=
  match l with
  | [] => none
  | c :: r =>
    if c = 'n' then
      match r with
      | 'u' :: 'l' :: 'l' :: r2 => some (.jnull, r2)
      | _ => none
    else if c = 't' then
      match r with
      | 'r' :: 'u' :: 'e' :: r2 => some (.jbool true, r2)
      | _ => none
    else if c = 'f' then
      match r with
      | 'a' :: 'l' :: 's' :: 'e' :: r2 => some (.jbool false, r2)
      | _ => none
    else if c = '"' then
      (parseStrBody r.length r).map (fun p => (.jstr p.1, p.2))
    else if c = '-' then
      (parseNat r).map (fun p => (.jnum (-(p.1 : Int)), p.2))
    else if isDigitC c then
      (parseNat l).map (fun p => (.jnum (p.1 : Int), p.2))
    else none

/-- Parse one `"key": value` pair of a canonically encoded object. -/
def parseField (l : List Char) : Option ((String × JVal) × List Char) :=
  match l with
  | '"' :: r =>
    match parseStrBody r.length r with
    | none => none
    | some (k, r1) =>
      match r1 with
      | ':' :: ' ' :: r2 => (parseJVal r2).map (fun p => ((String.mk k, p.1), p.2))
      | _ => none
  | _ => none

/-- Parse the fields of a non-empty canonically encoded object, consuming
the closing brace.  The fuel only bounds the number of fields. -/
def parseFieldsAux : Nat → List Char → Option (Message × List Char)
  | 0, _ => none
  | fuel + 1, l =>
    match parseField l with
    | none => none
    | some (kv, r) =>
      match r with
      | [] => none
      | c :: r2 =>
        if c = rbrace then some ([kv], r2)
        else if c = ',' then
          match r2 with
          | ' ' :: r3 => (parseFieldsAux fuel r3).map (fun p => (kv :: p.1, p.2))
          | _ => none
        else none

/-- Model of `json.loads` on the canonical strings produced by `dumps`
(the only strings the intra-session store ever decodes): the whole input
must be consumed. -/
def loads (l : List Char) : Option Message :=
  match l with
  | [] => none
  | c :: r =>
    if c = lbrace then
      match r with
      | [] => none
      | c2 :: r2 =>
        if c2 = rbrace then (if r2 = [] then some [] else none)
        else
          match parseFieldsAux r.length r with
          | some (m, []) => some m
          | _ => none
    else none

/-- Sequential decode of a list of raw entries; any failure aborts
(the Python list comprehension raises and the store returns `[]`). -/
def loadsAll : List (List Char) → Option (List Message)
  | [] => some []
  | s :: rest =>
    match loads s, loadsAll rest with
    | some m, some ms => some (m :: ms)
    | _, _ => none

/-! ## Association-list primitives

Python dictionaries and the key spaces of the modelled backends are
insertion-ordered maps; `assocSet` replaces an existing binding in place
(as `d[k] = v` and `{**d, k: v}` do) and appends a missing one. -/

/-- Look up the first binding of a key. -/
def assocGet {α : Type} : List (String × α) → String → Option α
  | [], _ => none
  | kv :: rest, key => if kv.1 = key then some kv.2 else assocGet rest key

/-- Set a binding: replace the first occurrence in place, else append. -/
def assocSet {α : Type} : List (String × α) → String → α → List (String × α)
  | [], key, v => [(key, v)]
  | kv :: rest, key, v =>
    if kv.1 = key then (kv.1, v) :: rest else kv :: assocSet rest key v

/-- Remove every binding of a key (`DEL`, cache invalidation). -/
def assocErase {α : Type} (l : List (String × α)) (key : String) : List (String × α) :=
  l.filter (fun kv => kv.1 ≠ key)

/-- Join a list of strings with a separator (Python `sep.join`). -/
def joinSep (sep : List Char) : List (List Char) → List Char
  | [] => []
  | [x] => x
  | x :: rest => x ++ sep ++ joinSep sep rest

/-! ## Redis model

One Redis instance: ordinary list keys (`RPUSH`/`LRANGE`/`DEL`) and
streams (`XADD`).  TTLs (`EXPIRE`) do not change the stored data and are
not part of the model.  An unavailable backend is represented by `none`
at the use sites (`get_client()` returning `None`). -/

/-- Entry of a Redis stream: a flat field/value dictionary of strings. -/
abbrev StreamEntry := List (String × String)

/-- Data of one Redis instance. -/
structure RedisData where
  lists : List (String × List (List Char))
  streams : List (String × List StreamEntry)
deriving DecidableEq, Repr

/-- Model of `RPUSH key v`: append to the tail of the list at `key`,
creating it when absent. -/
def RedisData.rpush (d : RedisData) (key : String) (v : List Char) : RedisData :=
  { d with lists := assocSet d.lists key (((assocGet d.lists key).getD []) ++ [v]) }

/-- Model of `LRANGE key start stop` with Redis index semantics: negative
indices count from the end, out-of-range indices are clamped, and an empty
range yields `[]`. -/
def RedisData.lrange (d : RedisData) (key : String) (start stop : Int) : List (List Char) :=
  let l := (assocGet d.lists key).getD []
  let n : Int := l.length
  let s : Int := if start < 0 then max (n + start) 0 else start
  let e : Int := if stop < 0 then n + stop else min stop (n - 1)
  if e < s then [] else (l.take (e.toNat + 1)).drop s.toNat

/-- Model of `DEL key` for a list key. -/
def RedisData.del (d : RedisData) (key : String) : RedisData :=
  { d with lists := assocErase d.lists key }

/-- Model of `XADD key entry`: append an entry to the stream at `key`,
creating it when absent. -/
def RedisData.xadd (d : RedisData) (key : String) (entry : StreamEntry) : RedisData :=
  { d with streams := assocSet d.streams key (((assocGet d.streams key).getD []) ++ [entry]) }

/-! ## Intra-session store (`memory/stores/intra_session.py`)

State is `Option RedisData`: `none` models `get_client()` returning
`None`.  Redis operations themselves are modelled as non-failing when the
client exists. -/

/-- Redis key for a session (`_get_key`). -/
def IntraSessionMemoryStore.getKey (session_id : String) : String :=
  "session:" ++ session_id

/-- Model of `save_message`: `RPUSH` the JSON-encoded message and refresh
the TTL (the TTL touch does not change the data). -/
def IntraSessionMemoryStore.save_message (st : Option RedisData) (session_id : String)
    (message : Message) : Bool × Option RedisData :=
  match st with
  | none => (false, none)
  | some d => (true, some (d.rpush (IntraSessionMemoryStore.getKey session_id) (dumps message)))

/-- Model of `get_messages`: `LRANGE` of the last `limit` entries (all when
`limit` is `None` or `0`, per Python truthiness), each decoded with
`json.loads`; a decode error makes the whole call return `[]`. -/
def IntraSessionMemoryStore.get_messages (st : Option RedisData) (session_id : String)
    (limit : Option Nat) : List Message :=
  match st with
  | none => []
  | some d =>
    let key := IntraSessionMemoryStore.getKey session_id
    let raw :=
      match limit with
      | some l => if l ≠ 0 then d.lrange key (-(l : Int)) (-1) else d.lrange key 0 (-1)
      | none => d.lrange key 0 (-1)
    (loadsAll raw).getD []

/-- Model of `clear_session`: `DEL` the session key. -/
def IntraSessionMemoryStore.clear_session (st : Option RedisData) (session_id : String) :
    Bool × Option RedisData :=
  match st with
  | none => (false, none)
  | some d => (true, some (d.del (IntraSessionMemoryStore.getKey session_id)))

/-- Model of `refresh_ttl`: `EXPIRE` only; no data change. -/
def IntraSessionMemoryStore.refresh_ttl (st : Option RedisData) (_session_id : String) : Bool :=
  st.isSome

/-- Sequence of `save_message` calls, threading the store state (the
quantification "appending them in order" of the order-preservation
property). -/
def appendAll (st : Option RedisData) (session_id : String) : List Message → Option RedisData
  | [] => st
  | m :: rest =>
    appendAll (IntraSessionMemoryStore.save_message st session_id m).2 session_id rest

/-! ## BSON-like documents and MongoDB `update_one`

Documents are flat association lists whose values are scalars, string
lists, flat sub-documents, or arrays of flat message objects — exactly the
shapes this codebase stores.  `update_one` follows MongoDB's semantics for
`$set` / `$inc` / `$setOnInsert` with equality filters, including the
server-side rejection (error 40, `ConflictingUpdateOperators`) of an update
document in which the same field path appears under two update operators;
pymongo raises that rejection as an exception. -/

/-- Primitive BSON values (and lists of strings, e.g. `likes`). -/
inductive BPrim where
  | pnull : BPrim
  | pbool (b : Bool) : BPrim
  | pint (n : Int) : BPrim
  | pstr (s : String) : BPrim
  | pstrlist (l : List String) : BPrim
deriving DecidableEq, Repr

/-- Top-level BSON values of a stored document. -/
inductive BVal where
  | prim (p : BPrim) : BVal
  | bmsgs (msgs : List Message) : BVal
  | bmap (fields : List (String × BPrim)) : BVal
deriving DecidableEq, Repr

/-- Stored document: a flat association list of BSON values. -/
abbrev MDoc := List (String × BVal)

/-- Shorthand for a string value. -/
def bstr (s : String) : BVal := .prim (.pstr s)

/-- Shorthand for an integer value. -/
def bint (n : Int) : BVal := .prim (.pint n)

/-- Update document of an `update_one` call: the field/value lists of
`$set`, `$inc` and `$setOnInsert`. -/
structure UpdateDoc where
  set : List (String × BVal)
  inc : List (String × Int)
  setOnInsert : List (String × BVal)
deriving Repr

/-- Field paths named anywhere in the update document. -/
def UpdateDoc.paths (u : UpdateDoc) : List String :=
  u.set.map Prod.fst ++ u.inc.map Prod.fst ++ u.setOnInsert.map Prod.fst

/-- Duplicate test on a path list. -/
def hasDupPaths : List String → Bool
  | [] => false
  | k :: rest => rest.contains k || hasDupPaths rest

/-- Equality-filter match: every filter pair equals the document's value
at that field. -/
def docMatches (doc : MDoc) (filter : List (String × BVal)) : Bool :=
  filter.all (fun kv =>
    match assocGet doc kv.1 with
    | some w => w = kv.2
    | none => false)

/-- Semantics of `$inc` on one field: add to an integer, create a missing
field with the increment (non-numeric targets never occur here). -/
def incVal : Option BVal → Int → BVal
  | some (.prim (.pint m)), n => bint (m + n)
  | _, n => bint n

/-- Apply `$set` then `$inc` to an existing (matched) document;
`$setOnInsert` is ignored on a match. -/
def applyUpdate (doc : MDoc) (u : UpdateDoc) : MDoc :=
  let d1 := u.set.foldl (fun d kv => assocSet d kv.1 kv.2) doc
  u.inc.foldl (fun d kn => assocSet d kn.1 (incVal (assocGet d kn.1) kn.2)) d1

/-- Document created by an upsert with no match: the filter's equality
fields, then `$set`, `$inc` and `$setOnInsert`. -/
def insertFromUpsert (filter : List (String × BVal)) (u : UpdateDoc) : MDoc :=
  let base := filter.foldl (fun d kv => assocSet d kv.1 kv.2) ([] : MDoc)
  let d1 := applyUpdate base u
  u.setOnInsert.foldl (fun d kv => assocSet d kv.1 kv.2) d1

/-- Update the first matching document of the collection, if any. -/
def updateFirst (filter : List (String × BVal)) (u : UpdateDoc) :
    List MDoc → Option (List MDoc)
  | [] => none
  | d :: rest =>
    if docMatches d filter then some (applyUpdate d u :: rest)
    else (updateFirst filter u rest).map (fun c => d :: c)

/-- First matching document (`find_one` with an equality filter). -/
def findFirst (coll : List MDoc) (filter : List (String × BVal)) : Option MDoc :=
  coll.find? (fun d => docMatches d filter)

/-- Python-level exceptions surfaced by the modelled libraries. -/
inductive PyErr where
  | writeError : PyErr
  | attributeError : PyErr
deriving DecidableEq, Repr

/-- Model of pymongo `update_one` with an equality filter.  An update
document whose operators mention the same path twice is rejected by the
server (`ConflictingUpdateOperators`), surfaced as an exception; otherwise
the first matching document is updated, or — with `upsert` and no match —
a document is inserted.  Returns the new collection and `matched_count`. -/
def update_one (coll : List MDoc) (filter : List (String × BVal)) (u : UpdateDoc)
    (upsert : Bool) : Except PyErr (List MDoc × Nat) :=
  if hasDupPaths u.paths then .error .writeError
  else
    match updateFirst filter u coll with
    | some coll2 => .ok (coll2, 1)
    | none =>
      if upsert then .ok (coll ++ [insertFromUpsert filter u], 0)
      else .ok (coll, 0)

/-! ## Memory configuration (`memory/mem_config.py`)

`MemoryConfig.__init__` assigns a fixed set of attributes.  The structure
carries their (environment-dependent) values; `memoryConfigAttrNames` is
the exact list of attribute names the constructor assigns, used to model
Python attribute lookup — accessing any other name raises
`AttributeError`. -/

/-- Values assigned by `MemoryConfig.__init__` (environment-dependent,
hence structure fields rather than constants). -/
structure MemoryConfig where
  USE_LTM : Bool
  VERBOSE : Bool
  REDIS_HOST : String
  REDIS_PORT : Int
  REDIS_DB : Int
  REDIS_PASSWORD : Option String
  INTRA_SESSION_TTL : Int
  MONGO_URI : String
  MONGO_DB : String
  MONGO_CONVERSATIONS_COLLECTION : String
  MONGO_PREFERENCES_COLLECTION : String
  QDRANT_HOST : String
  QDRANT_PORT : Int
  QDRANT_API_KEY : Option String
  QDRANT_COLLECTION : String
  VECTOR_DIM : Int
  QDRANT_URL : Option String
  QDRANT_HTTPS : Bool
  USE_LEGACY_MEMORY : Bool
  ENABLE_REDIS_CACHE : Bool
  ENABLE_ASYNC_EMBEDDING : Bool
  EMBEDDING_QUEUE : String
  EMBEDDING_BATCH_SIZE : Nat
  DEFAULT_RETRIEVAL_K : Nat
  MIN_SIMILARITY : ℚ
deriving Repr

/-- The attribute names `MemoryConfig.__init__` assigns, in source order.
Note that neither `ENABLE_PREF_EXTRACTION` nor `PREF_QUEUE` is among
them (`mem_config.py` lines 9-52), although `queue_extraction_job` reads
both. -/
def memoryConfigAttrNames : List String :=
  ["USE_LTM", "VERBOSE",
   "REDIS_HOST", "REDIS_PORT", "REDIS_DB", "REDIS_PASSWORD", "INTRA_SESSION_TTL",
   "MONGO_URI", "MONGO_DB", "MONGO_CONVERSATIONS_COLLECTION", "MONGO_PREFERENCES_COLLECTION",
   "QDRANT_HOST", "QDRANT_PORT", "QDRANT_API_KEY", "QDRANT_COLLECTION", "VECTOR_DIM",
   "QDRANT_URL", "QDRANT_HTTPS",
   "USE_LEGACY_MEMORY", "ENABLE_REDIS_CACHE", "ENABLE_ASYNC_EMBEDDING",
   "EMBEDDING_QUEUE", "EMBEDDING_BATCH_SIZE",
   "DEFAULT_RETRIEVAL_K", "MIN_SIMILARITY"]

/-- Python `hasattr` on a `MemoryConfig` instance. -/
def memoryConfigHasAttr (name : String) : Bool :=
  memoryConfigAttrNames.contains name

/-- Attribute access `self.config.ENABLE_PREF_EXTRACTION`: the constructor
never assigns it, so the lookup yields no value (an `AttributeError`). -/
def MemoryConfig.attr_ENABLE_PREF_EXTRACTION : Option Bool := none

/-- Attribute access `self.config.PREF_QUEUE`: likewise never assigned. -/
def MemoryConfig.attr_PREF_QUEUE : Option String := none

/-! ## User-preference store (`memory/stores/preferences.py`)

The Redis-side cache stores the JSON-serialised preference mapping under
`pref:{user_id}`; serialisation is modelled as the identity on decoded
mappings (no preference claim inspects the raw bytes).  The cache state is
`Option CacheData`: `none` models the Redis client being unavailable. -/

/-- Redis cache contents for preferences: cache key to decoded mapping. -/
abbrev CacheData := List (String × List (String × BPrim))

/-- Cache key for a user (`_get_cache_key`). -/
def UserPreferenceStore.cacheKey (user_id : String) : String := "pref:" ++ user_id

/-- Model of `get_preferences`: cache read (when enabled and available),
else MongoDB `find_one` on `user_id`; the result is the document's
`preferences` mapping decorated with `_version` (defaulted to 1 when the
document lacks a `version` field), and the cache is warmed.  A
`preferences` field that is not a mapping makes the dict-unpacking raise,
which the store catches, returning `None`.  Returns the mapping (or
`none`) and the resulting cache state. -/
def UserPreferenceStore.get_preferences (cfg : MemoryConfig) (cache : Option CacheData)
    (db : Option (List MDoc)) (user_id : String) :
    Option (List (String × BPrim)) × Option CacheData :=
  let cached : Option (List (String × BPrim)) :=
    if cfg.ENABLE_REDIS_CACHE then
      match cache with
      | some cd => assocGet cd (UserPreferenceStore.cacheKey user_id)
      | none => none
    else none
  match cached with
  | some m => (some m, cache)
  | none =>
    match db with
    | none => (none, cache)
    | some coll =>
      match findFirst coll [("user_id", bstr user_id)] with
      | none => (none, cache)
      | some doc =>
        let prefs? : Option (List (String × BPrim)) :=
          match assocGet doc "preferences" with
          | some (.bmap p) => some p
          | none => some []
          | some _ => none
        match prefs? with
        | none => (none, cache)
        | some prefs =>
          let version : Int :=
            match assocGet doc "version" with
            | some (.prim (.pint v)) => v
            | _ => 1
          let out := assocSet prefs "_version" (.pint version)
          let cache2 :=
            if cfg.ENABLE_REDIS_CACHE then
              match cache with
              | some cd => some (assocSet cd (UserPreferenceStore.cacheKey user_id) out)
              | none => cache
            else cache
          (some out, cache2)

/-- Model of `set_preferences` with optimistic locking.  A `None`
`expected_version` is the blind-upsert path, whose update document puts
`version` under both `$inc` and `$setOnInsert`; a given `expected_version`
is the compare-and-swap path (`matched_count == 0` means conflict).  On
success the cache entry is invalidated.  Returns
(result, collection, cache). -/
def UserPreferenceStore.set_preferences (cfg : MemoryConfig) (cache : Option CacheData)
    (db : Option (List MDoc)) (user_id : String) (preferences : List (String × BPrim))
    (expected_version : Option Int) : Bool × Option (List MDoc) × Option CacheData :=
  match db with
  | none => (false, none, cache)
  | some coll =>
    let finish : List MDoc → Bool × Option (List MDoc) × Option CacheData := fun coll2 =>
      let cache2 :=
        if cfg.ENABLE_REDIS_CACHE then
          match cache with
          | some cd => some (assocErase cd (UserPreferenceStore.cacheKey user_id))
          | none => cache
        else cache
      (true, some coll2, cache2)
    match expected_version with
    | none =>
      match update_one coll [("user_id", bstr user_id)]
          ⟨[("preferences", .bmap preferences)], [("version", 1)], [("version", bint 1)]⟩
          true with
      | .error _ => (false, some coll, cache)
      | .ok (coll2, _) => finish coll2
    | some v =>
      match update_one coll [("user_id", bstr user_id), ("version", bint v)]
          ⟨[("preferences", .bmap preferences)], [("version", 1)], []⟩ false with
      | .error _ => (false, some coll, cache)
      | .ok (coll2, matched) =>
        if matched = 0 then (false, some coll2, cache) else finish coll2

/-- Model of `update_preference`: read-through `get_preferences` (whose
result still carries the `_version` decoration), set the key, and write
back through the blind-upsert path of `set_preferences`. -/
def UserPreferenceStore.update_preference (cfg : MemoryConfig) (cache : Option CacheData)
    (db : Option (List MDoc)) (user_id key : String) (value : BPrim) :
    Bool × Option (List MDoc) × Option CacheData :=
  let got := UserPreferenceStore.get_preferences cfg cache db user_id
  let prefs := got.1.getD []
  let prefs := assocSet prefs key value
  UserPreferenceStore.set_preferences cfg got.2 db user_id prefs none

/-- Model of `queue_extraction_job`.  The guard reads
`self.config.ENABLE_PREF_EXTRACTION` outside any `try` block, and
`MemoryConfig.__init__` never assigns that attribute, so the access raises
`AttributeError` to the caller.  The rest of the body (never reached) is
transcribed for completeness: were the flag defined and falsy the call
would return `False`; otherwise the `xadd` inside the `try` reads
`self.config.PREF_QUEUE`, also never assigned, and that `AttributeError`
would be caught, returning `False`. -/
def UserPreferenceStore.queue_extraction_job (_cfg : MemoryConfig)
    (redis : Option RedisData) (user_id session_id : String) :
    Except PyErr (Bool × Option RedisData) :=
  match MemoryConfig.attr_ENABLE_PREF_EXTRACTION with
  | none => .error .attributeError
  | some flag =>
    if !flag then .ok (false, redis)
    else
      match redis with
      | none => .ok (false, none)
      | some d =>
        match MemoryConfig.attr_PREF_QUEUE with
        | none => .ok (false, some d)
        | some q =>
          .ok (true, some (d.xadd q [("user_id", user_id), ("session_id", session_id)]))

/-! ## Inter-session store (`memory/stores/inter_session.py`)

Conversations live in the MongoDB `conversations` collection; embeddings
live in Qdrant.  The embedder (`init_embedder().embed_query`) is an
explicit function parameter returning `none` when the call raises; the
vector-similarity scoring of Qdrant is an explicit function parameter. -/

/-- Python `str()` of a scalar JSON value, as an f-string interpolates it. -/
def pyStrJVal : JVal → List Char
  | .jstr s => s
  | .jnum n => intRepr n
  | .jbool true => ['T', 'r', 'u', 'e']
  | .jbool false => ['F', 'a', 'l', 's', 'e']
  | .jnull => ['N', 'o', 'n', 'e']

/-- Content of a message for summary building: `msg.get("content", "")`
followed by `isinstance(content, str)` — a missing field yields the empty
string (which is a `str`), a non-string field is skipped. -/
def msgContentStr (m : Message) : Option (List Char) :=
  match assocGet m "content" with
  | some (.jstr s) => some s
  | none => some []
  | some _ => none

/-- Model of `_create_summary`: over the first 10 messages, format
`"[" type "] " content-truncated-to-150` for string contents, join with
`" | "`, truncate to 800 characters. -/
def InterSessionMemoryStore.createSummary (messages : List Message) : List Char :=
  let parts := (messages.take 10).filterMap (fun msg =>
    let msg_type :=
      match assocGet msg "type" with
      | some v => pyStrJVal v
      | none => ['u', 'n', 'k', 'n', 'o', 'w', 'n']
    (msgContentStr msg).map (fun content =>
      '[' :: msg_type ++ ']' :: ' ' :: content.take 150))
  (joinSep [' ', '|', ' '] parts).take 800

/-- Model of `save_conversation`: build the summary and the conversation
document and upsert it by `session_id`.  The update document `$set`s every
field of the document — `created_at` included — while also naming
`created_at` under `$setOnInsert`; MongoDB rejects that update document
(same path under two operators) and pymongo raises, so the `except` branch
returns `False`. -/
def InterSessionMemoryStore.save_conversation (db : Option (List MDoc))
    (user_id session_id : String) (messages : List Message) (now : Int) :
    Bool × Option (List MDoc) :=
  match db with
  | none => (false, none)
  | some coll =>
    let summary := InterSessionMemoryStore.createSummary messages
    let conv : List (String × BVal) :=
      [("user_id", bstr user_id),
       ("session_id", bstr session_id),
       ("messages", .bmsgs messages),
       ("summary", bstr (String.mk summary)),
       ("metadata", .bmap [("message_count", .pint messages.length)]),
       ("updated_at", bint now),
       ("created_at", bint now)]
    match update_one coll [("session_id", bstr session_id)]
        ⟨conv, [], [("created_at", bint now)]⟩ true with
    | .error _ => (false, some coll)
    | .ok (coll2, _) => (true, some coll2)

/-! ## Qdrant model -/

/-- A stored vector point.  Embedding vectors are opaque to every claim;
they are modelled as integer lists. -/
structure QPoint where
  id : String
  vector : List Int
  payload : List (String × BPrim)
deriving DecidableEq, Repr

/-- Insertion of a scored point into a descending-by-score list; equal
scores keep the already-present (earlier) entries first. -/
def insertByScore (x : QPoint × ℚ) : List (QPoint × ℚ) → List (QPoint × ℚ)
  | [] => [x]
  | y :: rest => if y.2 < x.2 then x :: y :: rest else y :: insertByScore x rest

/-- Stable sort by descending score (backend order preserved on ties). -/
def sortByScoreDesc (l : List (QPoint × ℚ)) : List (QPoint × ℚ) :=
  l.foldl (fun acc x => insertByScore x acc) []

/-- Model of `qdrant.search` with the mandatory
`Filter(must=[FieldCondition(key="user_id", match=MatchValue(...))])`
filter: keep the points whose payload `user_id` equals the filter value
and whose similarity to the query is at least `score_threshold`, sort by
descending score (stable, preserving backend order on ties), return at
most `limit`. -/
def qdrantSearch (points : List QPoint) (queryVector : List Int) (filterUser : String)
    (limit : Nat) (scoreThreshold : ℚ) (sim : List Int → List Int → ℚ) :
    List (QPoint × ℚ) :=
  let cands := points.filterMap (fun p =>
    let s := sim queryVector p.vector
    let userOk : Bool :=
      match assocGet p.payload "user_id" with
      | some (BPrim.pstr u) => u = filterUser
      | _ => false
    if userOk && decide (scoreThreshold ≤ s) then some (p, s) else none)
  (sortByScoreDesc cands).take limit

/-- Memory type classification (`memory/models.py`). -/
inductive MemoryType where
  | INTRA_SESSION : MemoryType
  | INTER_SESSION : MemoryType
  | USER_PREFERENCE : MemoryType
  | PROFILE : MemoryType
  | TURN : MemoryType
deriving DecidableEq, Repr

/-- String value of each `MemoryType` member (`memory/models.py` lines
9-15). -/
def MemoryType.value : MemoryType → String
  | .INTRA_SESSION => "intra_session"
  | .INTER_SESSION => "inter_session"
  | .USER_PREFERENCE => "user_preference"
  | .PROFILE => "profile"
  | .TURN => "turn"

/-- The `MemoryItem` dataclass (`memory/models.py`), restricted to the
fields `retrieve_similar` populates. -/
structure MemoryItemM where
  id : String
  user_id : String
  session_id : Option String
  memory_type : MemoryType
  content : List Char
  created_at : Int
  metadata : List (String × BPrim)
deriving DecidableEq, Repr

/-- Model of `retrieve_similar`: embed the query (an embedder failure is
caught, yielding `[]`), search Qdrant with the mandatory `user_id` filter,
`limit = k * 2` and `score_threshold = min_similarity`, then for the first
`k` hits enrich from MongoDB (prefer the document's `summary` over the
payload's truncated content when it is a non-empty string, and the
document's `updated_at` over the payload's `created_at`) and emit
`MemoryItem`s of type `inter_session` whose `user_id` is the caller's. -/
def InterSessionMemoryStore.retrieve_similar (qdrant : Option (List QPoint))
    (db : Option (List MDoc)) (embed : List Char → Option (List Int))
    (sim : List Int → List Int → ℚ) (user_id : String) (query : List Char)
    (k : Nat) (min_similarity : ℚ) (now : Int) : List (MemoryItemM × ℚ) :=
  match qdrant with
  | none => []
  | some points =>
    match embed query with
    | none => []
    | some qv =>
      let search_results := qdrantSearch points qv user_id (k * 2) min_similarity sim
      (search_results.take k).map (fun hs =>
        let payload := hs.1.payload
        let sid? : Option String :=
          match assocGet payload "session_id" with
          | some (BPrim.pstr s) => some s
          | _ => none
        let content_preview : List Char :=
          match assocGet payload "content" with
          | some (BPrim.pstr s) => s.toList
          | _ => []
        let created0 : Int :=
          match assocGet payload "created_at" with
          | some (BPrim.pint t) => t
          | _ => now
        let enriched : List Char × Int :=
          match db, sid? with
          | some coll, some sid =>
            if sid ≠ "" then
              match findFirst coll [("session_id", bstr sid)] with
              | some doc =>
                let full_content :=
                  match assocGet doc "summary" with
                  | some (.prim (.pstr s)) => if s = "" then content_preview else s.toList
                  | _ => content_preview
                let created :=
                  match assocGet doc "updated_at" with
                  | some (.prim (.pint t)) => t
                  | _ => created0
                (full_content, created)
              | none => (content_preview, created0)
            else (content_preview, created0)
          | _, _ => (content_preview, created0)
        let item : MemoryItemM :=
          { id := hs.1.id
            user_id := user_id
            session_id := sid?
            memory_type := .INTER_SESSION
            content := enriched.1
            created_at := enriched.2
            metadata := payload }
        (item, hs.2))

/-- Model of `queue_embedding_job`'s immediate fallback
(`_embed_and_store_immediately`): embed the content (a raising embedder is
caught, returning `False`) and upsert a fresh point with the
user/session/content payload; `content` is truncated to 500 characters in
the payload. -/
def InterSessionMemoryStore.embed_and_store_immediately (qdrant : Option (List QPoint))
    (embed : List Char → Option (List Int)) (user_id session_id : String)
    (content : List Char) (newId : String) (now : Int) : Bool × Option (List QPoint) :=
  match qdrant with
  | none => (false, none)
  | some points =>
    match embed content with
    | none => (false, some points)
    | some v =>
      let point : QPoint :=
        { id := newId
          vector := v
          payload := [("user_id", .pstr user_id), ("session_id", .pstr session_id),
                      ("content", .pstr (String.mk (content.take 500))),
                      ("created_at", .pint now)] }
      (true, some (points ++ [point]))

/-- System state threaded through the memory manager: the Redis instance,
the MongoDB `conversations` collection and the Qdrant collection, each
`none` when the backend is unavailable. -/
structure SysState where
  redis : Option RedisData
  convs : Option (List MDoc)
  qdrant : Option (List QPoint)
deriving Repr

/-- Model of `queue_embedding_job`: with async embedding disabled, embed
immediately; otherwise publish a job onto the `EMBEDDING_QUEUE` stream
(`getattr(self.mongo_manager, 'redis_manager', None)` is always `None` —
`MongoConnectionManager` has no such attribute — so the store falls back
to a fresh `RedisConnectionManager` against the same Redis); with Redis
unavailable or the publish raising, fall back to immediate embedding. -/
def InterSessionMemoryStore.queue_embedding_job (cfg : MemoryConfig) (st : SysState)
    (embed : List Char → Option (List Int)) (user_id session_id : String)
    (content : List Char) (newId : String) (now : Int) : Bool × SysState :=
  if !cfg.ENABLE_ASYNC_EMBEDDING then
    let r := InterSessionMemoryStore.embed_and_store_immediately st.qdrant embed
      user_id session_id content newId now
    (r.1, { st with qdrant := r.2 })
  else
    match st.redis with
    | none =>
      let r := InterSessionMemoryStore.embed_and_store_immediately st.qdrant embed
        user_id session_id content newId now
      (r.1, { st with qdrant := r.2 })
    | some d =>
      let job : StreamEntry :=
        [("user_id", user_id), ("session_id", session_id),
         ("content", String.mk content),
         ("created_at", String.mk (intRepr now)), ("status", "pending")]
      (true, { st with redis := some (d.xadd cfg.EMBEDDING_QUEUE job) })

/-! ## Memory manager (`memory/manager.py`) -/

/-- Model of `_create_conversation_summary`: pair adjacent messages as
`"Q: ...[:200]\nA: ...[:200]"`, join with blank lines, truncate to 800.
Message contents are strings at every call site. -/
def ProductionMemoryManager.qaPairs : List Message → List (List Char)
  | m1 :: m2 :: rest =>
    let q := (msgContentStr m1).getD []
    let a := (msgContentStr m2).getD []
    (['Q', ':', ' '] ++ q.take 200 ++ '\n' :: 'A' :: ':' :: ' ' :: a.take 200)
      :: ProductionMemoryManager.qaPairs rest
  | _ => []

/-- Join of the Q/A pairs, truncated to 800 characters. -/
def ProductionMemoryManager.create_conversation_summary (messages : List Message) :
    List Char :=
  (joinSep ['\n', '\n'] (ProductionMemoryManager.qaPairs messages)).take 800

/-- Model of `finalize_session`: read the intra-session log (empty ⇒ return
`True`), save the conversation to MongoDB, on success (with async
embedding enabled) queue the embedding job, then — unconditionally —
clear the Redis session, and return the save result. -/
def ProductionMemoryManager.finalize_session (cfg : MemoryConfig) (st : SysState)
    (user_id session_id : String) (now : Int) (embed : List Char → Option (List Int))
    (newId : String) : Bool × SysState :=
  let messages := IntraSessionMemoryStore.get_messages st.redis session_id none
  if messages.isEmpty then (true, st)
  else
    let saved := InterSessionMemoryStore.save_conversation st.convs user_id session_id
      messages now
    let st1 : SysState := { st with convs := saved.2 }
    let st2 : SysState :=
      if saved.1 && cfg.ENABLE_ASYNC_EMBEDDING then
        (InterSessionMemoryStore.queue_embedding_job cfg st1 embed user_id session_id
          (ProductionMemoryManager.create_conversation_summary messages) newId now).2
      else st1
    let cleared := IntraSessionMemoryStore.clear_session st2.redis session_id
    (saved.1, { st2 with redis := cleared.2 })

/-! ## Context formatting (`memory/manager.py` lines 111-125) -/

/-- Two-decimal rendering of `h` hundredths (the integer value of
`score * 100` after rounding), as `"%.2f"` prints it. -/
def fmt2h (h : Int) : List Char :=
  (if h < 0 then ['-'] else []) ++
    natDigits (h.natAbs / 100) ++
    '.' :: (if h.natAbs % 100 < 10 then ['0', digitChar (h.natAbs % 100)]
            else natDigits (h.natAbs % 100))

/-- Round `a / b` (with `b > 0`) to the nearest integer, ties to even —
the rounding Python's float formatting applies. -/
def roundHalfEvenInt (a : Int) (b : Nat) : Int :=
  let f := Int.ediv a b
  let r2 := 2 * (a - f * b)
  if r2 < b then f else if (b : Int) < r2 then f + 1
  else if Int.emod f 2 = 0 then f else f + 1

/-- Model of the f-string's `{score:.2f}`: the score rounded to
hundredths, rendered with two decimals. -/
def fmt2 (q : ℚ) : List Char := fmt2h (roundHalfEvenInt (100 * q.num) q.den)

/-- One formatted context line:
`f"- ({memory_type}, similarity={score:.2f}) {content_preview}"` with
`memory_type = item.memory_type.value` and the content truncated to 200
characters. -/
def mkContextLine (item : MemoryItemM) (score : ℚ) : List Char :=
  ("- (").toList ++ item.memory_type.value.toList ++ (", similarity=").toList ++
    fmt2 score ++ (") ").toList ++ item.content.take 200

/-- The line-accumulation loop of `format_memories_for_context`: append
each line and stop as soon as the accumulated character count of the
appended lines exceeds `max_chars` (the crossing line is kept). -/
def formatLines (max_chars : Nat) (acc : Nat) : List (MemoryItemM × ℚ) → List (List Char)
  | [] => []
  | (item, score) :: rest =>
    let line := mkContextLine item score
    if max_chars < acc + line.length then [line]
    else line :: formatLines max_chars (acc + line.length) rest

/-- Model of `format_memories_for_context`: empty input yields the empty
string, otherwise the header followed by the accumulated lines joined
with newlines. -/
def ProductionMemoryManager.format_memories_for_context
    (memories : List (MemoryItemM × ℚ)) (max_chars : Nat) : List Char :=
  if memories.isEmpty then []
  else
    ("Relevant context from past conversations:\n").toList ++
      joinSep ['\n'] (formatLines max_chars 0 memories)

/-! ## Preference extraction (`scripts/pref_worker.py`, `extract_prefs_regex`)

The four `re.search` calls are transcribed as position scanners: a scanner
tries a match at every position from the left, carrying the previous
character for `\b` word-boundary tests.  Greedy quantifiers and the
backtracking actually reachable for these patterns are built into each
per-position matcher. -/

/-- ASCII letter test (`[a-zA-Z]`; the scanned texts are ASCII). -/
def isAlphaC (c : Char) : Bool :=
  (97 ≤ c.toNat && c.toNat ≤ 122) || (65 ≤ c.toNat && c.toNat ≤ 90)

/-- ASCII upper-case letter test (`[A-Z]`). -/
def isUpperC (c : Char) : Bool := 65 ≤ c.toNat && c.toNat ≤ 90

/-- Word character test (`\w` over the ASCII texts scanned here). -/
def isWordC (c : Char) : Bool := isAlphaC c || isDigitC c || c = '_'

/-- Whitespace test (`\s` over ASCII). -/
def isSpaceC (c : Char) : Bool :=
  c = ' ' || c.toNat = 9 || c.toNat = 10 || c.toNat = 13 || c.toNat = 12 || c.toNat = 11

/-- Lower-casing of an ASCII character (`re.I` comparisons). -/
def lowerC (c : Char) : Char :=
  if 65 ≤ c.toNat && c.toNat ≤ 90 then Char.ofNat (c.toNat + 32) else c

/-- Does `\b` hold just before a word character, given the previous
character (none at the start of the text)? -/
def boundaryBefore (prev : Option Char) : Bool :=
  match prev with
  | some c => !isWordC c
  | none => true

/-- Does `\b` hold just after a word character, given the rest of the
input? -/
def boundaryAfterOk (l : List Char) : Bool :=
  match l with
  | [] => true
  | c :: _ => !isWordC c

/-- Strip a literal (case-insensitively when `ci`), returning the rest. -/
def stripLit (ci : Bool) : List Char → List Char → Option (List Char)
  | [], rest => some rest
  | _ :: _, [] => none
  | a :: lit, c :: l =>
    if (if ci then lowerC c = lowerC a else c = a) then stripLit ci lit l else none

/-- Scan every position of the text left to right, trying `tryAt` with the
previous character at each; `re.search` returns the leftmost match. -/
def searchPos {α : Type} (tryAt : Option Char → List Char → Option α) :
    Option Char → List Char → Option α
  | prev, l =>
    match tryAt prev l with
    | some r => some r
    | none =>
      match l with
      | [] => none
      | c :: rest => searchPos tryAt (some c) rest

/-- Per-position matcher for
`\b(budget|under|around)\s*\$?\s*([0-9]{2,6})\b` with `re.I`
(the three alternatives start with distinct letters, so at most one can
match at a position; a digit run capped by `{2,6}` followed by a word
character fails under every backtracking, as does a shortened `\s*`). -/
def tryBudgetAt (prev : Option Char) (l : List Char) : Option Nat :=
  if !boundaryBefore prev then none
  else
    let kw :=
      match stripLit true ("budget").toList l with
      | some r => some r
      | none =>
        match stripLit true ("under").toList l with
        | some r => some r
        | none => stripLit true ("around").toList l
    match kw with
    | none => none
    | some afterKw =>
      let r1 := afterKw.dropWhile isSpaceC
      let r2 := match r1 with
        | '$' :: r => r
        | _ => r1
      let r3 := r2.dropWhile isSpaceC
      let ds := r3.takeWhile isDigitC
      let rest := r3.dropWhile isDigitC
      if 2 ≤ ds.length && ds.length ≤ 6 && boundaryAfterOk rest then
        some (digitsToNat ds)
      else none

/-- Per-position matcher for
`\bfrom\s+([A-Z][a-zA-Z]+(?:\s+[A-Z][a-zA-Z]+)?)\b` (case-sensitive).
The optional second word is tried greedily and dropped when its trailing
`\b` fails — Python's backtracking for this pattern. -/
def tryCityAt (prev : Option Char) (l : List Char) : Option (List Char) :=
  if !boundaryBefore prev then none
  else
    match stripLit false ("from").toList l with
    | none => none
    | some r0 =>
      let sp := r0.takeWhile isSpaceC
      let r1 := r0.dropWhile isSpaceC
      if sp.isEmpty then none
      else
        match r1 with
        | [] => none
        | c1 :: r2 =>
          if isUpperC c1 then
            let letters := r2.takeWhile isAlphaC
            let r3 := r2.dropWhile isAlphaC
            if letters.isEmpty then none
            else
              let word1 := c1 :: letters
              let attempt2 : Option (List Char) :=
                let sp2 := r3.takeWhile isSpaceC
                let r4 := r3.dropWhile isSpaceC
                if sp2.isEmpty then none
                else
                  match r4 with
                  | [] => none
                  | c2 :: r5 =>
                    if isUpperC c2 then
                      let letters2 := r5.takeWhile isAlphaC
                      let r6 := r5.dropWhile isAlphaC
                      if letters2.isEmpty then none
                      else if boundaryAfterOk r6 then
                        some (word1 ++ sp2 ++ c2 :: letters2)
                      else none
                    else none
              match attempt2 with
              | some city => some city
              | none => if boundaryAfterOk r3 then some word1 else none
          else none

/-- Per-position matcher for `\b(alt1|alt2|...)\b` with `re.I`: an
alternative that matches the literal but fails the trailing `\b` lets the
later alternatives be tried (Python's alternation backtracking). -/
def tryKeywordAt (alts : List (List Char)) (prev : Option Char) (l : List Char) :
    Option Unit :=
  if !boundaryBefore prev then none
  else if alts.any (fun a =>
      match stripLit true a l with
      | some r => boundaryAfterOk r
      | none => false) then some () else none

/-- Whole-word presence of any of the alternatives (`re.search` is some). -/
def containsKeyword (alts : List String) (text : List Char) : Bool :=
  (searchPos (tryKeywordAt (alts.map String.toList)) none text).isSome

/-- Lexicographic (code-point) strict order on strings, as Python compares
them for `sorted`. -/
def lexLt : List Char → List Char → Bool
  | [], [] => false
  | [], _ :: _ => true
  | _ :: _, [] => false
  | a :: as2, b :: bs2 =>
    if a.toNat < b.toNat then true
    else if b.toNat < a.toNat then false
    else lexLt as2 bs2

/-- Insertion into a lexicographically sorted list. -/
def insertLex (x : List Char) : List (List Char) → List (List Char)
  | [] => [x]
  | y :: rest => if lexLt x y then x :: y :: rest else y :: insertLex x rest

/-- Insertion sort by the lexicographic order (Python `sorted`). -/
def sortLex (l : List (List Char)) : List (List Char) :=
  l.foldr insertLex []

/-- Extracted preferences.  `likes = []` models the absent key; likewise
`avoid_crowds = false` and the `none`s. -/
structure Prefs where
  budget : Option Nat
  departure_city : Option (List Char)
  likes : List (List Char)
  avoid_crowds : Bool
deriving DecidableEq, Repr

/-- Model of `extract_prefs_regex`: join the string message contents with
newlines (truncated to 5000 characters), then run the four regex
extractions; `likes` is `sorted(set(...))` of the keyword hits. -/
def extract_prefs_regex (messages : List Message) : Prefs :=
  let contents := messages.filterMap msgContentStr
  let text := (joinSep ['\n'] contents).take 5000
  let budget := searchPos tryBudgetAt none text
  let city := searchPos tryCityAt none text
  let likes0 :=
    (if containsKeyword ["beach", "island", "coast"] text then [("beach").toList] else [])
      ++ (if containsKeyword ["mountain", "hiking", "trail"] text then
            [("mountain").toList] else [])
      ++ (if containsKeyword ["museum", "art", "history"] text then
            [("culture").toList] else [])
  let likes := if likes0.isEmpty then [] else sortLex likes0.eraseDups
  let avoid := containsKeyword ["crowd", "crowded", "busy areas"] text
  { budget := budget, departure_city := city, likes := likes, avoid_crowds := avoid }

/-! ## Embedding worker (`scripts/embedding_worker.py`) -/

/-- A decoded embedding-queue entry (`job.get(...)` fields; a missing
field is `none`). -/
structure EmbJob where
  user_id : Option String
  session_id : Option String
  content : Option (List Char)
  created_at : Option Int
deriving DecidableEq, Repr

/-- An optional string as a payload value (`None` becomes null). -/
def optStrP : Option String → BPrim
  | some s => .pstr s
  | none => .pnull

/-- Model of `process_job`: an empty or missing `content` is acknowledged
as done with no embedder call and no upsert; otherwise embed and upsert a
fresh point (`embed` is `none` when the embedder raises; `upsert` is
`none` when the Qdrant upsert raises).  Returns the result, the resulting
collection, and the number of embedder calls made. -/
def EmbeddingWorker.process_job (embed : List Char → Option (List Int))
    (upsert : List QPoint → QPoint → Option (List QPoint)) (qdrant : List QPoint)
    (newId : String) (now : Int) (job : EmbJob) : Bool × List QPoint × Nat :=
  let content := job.content.getD []
  let created_at := job.created_at.getD now
  if content.isEmpty then (true, qdrant, 0)
  else
    match embed content with
    | none => (false, qdrant, 1)
    | some v =>
      let point : QPoint :=
        { id := newId
          vector := v
          payload := [("user_id", optStrP job.user_id),
                      ("session_id", optStrP job.session_id),
                      ("content", .pstr (String.mk (content.take 500))),
                      ("created_at", .pint created_at),
                      ("source", .pstr "embedding_worker")] }
      match upsert qdrant point with
      | none => (false, qdrant, 1)
      | some q2 => (true, q2, 1)

/-- The per-entry step of `run_worker`'s loop: process the job and `XACK`
the entry exactly when processing succeeded (a failed entry is left
un-acked for redelivery). -/
def EmbeddingWorker.handle_entry (embed : List Char → Option (List Int))
    (upsert : List QPoint → QPoint → Option (List QPoint)) (qdrant : List QPoint)
    (newId : String) (now : Int) (acked : List String) (msg_id : String) (job : EmbJob) :
    List QPoint × List String :=
  let r := EmbeddingWorker.process_job embed upsert qdrant newId now job
  if r.1 then (r.2.1, acked ++ [msg_id]) else (r.2.1, acked)

/-- Head of the rest is not a digit (so a greedy digit run stops there). -/
def headNotDigit (l : List Char) : Bool :=
  match l with
  | [] => true
  | c :: _ => !isDigitC c

/-! ## Concrete fixtures used by witnesses and counterexamples -/

/-- A `MemoryConfig` with the source's default values (empty environment):
`mem_config.py` defaults. -/
def cfgDefault : MemoryConfig :=
  { USE_LTM := true
    VERBOSE := true
    REDIS_HOST := "localhost"
    REDIS_PORT := 6379
    REDIS_DB := 0
    REDIS_PASSWORD := none
    INTRA_SESSION_TTL := 7200
    MONGO_URI := "mongodb://localhost:27017"
    MONGO_DB := "trip_planner"
    MONGO_CONVERSATIONS_COLLECTION := "conversations"
    MONGO_PREFERENCES_COLLECTION := "user_preferences"
    QDRANT_HOST := "localhost"
    QDRANT_PORT := 6333
    QDRANT_API_KEY := none
    QDRANT_COLLECTION := "conversations"
    VECTOR_DIM := 1536
    QDRANT_URL := none
    QDRANT_HTTPS := false
    USE_LEGACY_MEMORY := true
    ENABLE_REDIS_CACHE := true
    ENABLE_ASYNC_EMBEDDING := true
    EMBEDDING_QUEUE := "embedding_queue"
    EMBEDDING_BATCH_SIZE := 10
    DEFAULT_RETRIEVAL_K := 6
    MIN_SIMILARITY := mkRat 2 5 }

/-- One message of a live session. -/
def c1msg : Message :=
  [("type", .jstr ("user").toList), ("content", .jstr ("hi").toList)]

/-- System state for the C1 counterexample: Redis holds one message for
session `s1` (stored JSON-encoded, as `save_message` stores it) and
MongoDB is unavailable, so the save step fails. -/
def c1state : SysState :=
  { redis := some ⟨[("session:s1", [dumps c1msg])], []⟩
    convs := none
    qdrant := none }

/-- Preference collection holding one user document at version 3. -/
def c9coll : List MDoc :=
  [[("user_id", bstr "u1"),
    ("preferences", .bmap [("budget", .pint 1000)]),
    ("version", bint 3)]]

/-- A retrieved inter-session memory item, as `retrieve_similar` builds
them. -/
def c8item : MemoryItemM :=
  { id := "pt1"
    user_id := "u1"
    session_id := some "s1"
    memory_type := .INTER_SESSION
    content := ("hello").toList
    created_at := 0
    metadata := [] }

/-- The S5 conversation of the specification, as a single-message
conversation document body. -/
def s5msgs : List Message :=
  [[("type", .jstr ("user").toList),
    ("content", .jstr ("from Boston I want beach and museums under 1500").toList)]]

/-- Two vector points belonging to two different users. -/
def c5points : List QPoint :=
  [{ id := "pt1", vector := [1],
     payload := [("user_id", .pstr "u1"), ("session_id", .pstr "s1"),
                 ("content", .pstr "hola"), ("created_at", .pint 5)] },
   { id := "pt2", vector := [2],
     payload := [("user_id", .pstr "u2"), ("session_id", .pstr "s2"),
                 ("content", .pstr "ciao"), ("created_at", .pint 6)] }]

/-- The item `retrieve_similar` emits for `pt1` of `c5points` (no
document-store enrichment), with its score. -/
def c5hit : MemoryItemM × ℚ :=
  ({ id := "pt1", user_id := "u1", session_id := some "s1",
     memory_type := .INTER_SESSION, content := ("hola").toList, created_at := 5,
     metadata := [("user_id", .pstr "u1"), ("session_id", .pstr "s1"),
                  ("content", .pstr "hola"), ("created_at", .pint 5)] }, 1)

/-! ## Theorems

Helper lemmas first, then one theorem per claim (with witnesses and
counterexamples where the claim's status requires them). -/

theorem isDigitC_digitChar (n : Nat) : isDigitC (digitChar n) = true := by
  unfold digitChar
  split <;> decide

theorem digitVal_digitChar : ∀ n < 10, digitVal (digitChar n) = n := by decide

theorem hexVal_hexDigitChar : ∀ n < 16, hexVal (hexDigitChar n) = some n := by decide

theorem natDigitsGo_irrel (n : Nat) : ∀ f1 f2, n < f1 → n < f2 →
    natDigitsGo f1 n = natDigitsGo f2 n := by
  induction n using Nat.strong_induction_on with
  | _ n ih =>
    intro f1 f2 h1 h2
    cases f1 with
    | zero => omega
    | succ a =>
      cases f2 with
      | zero => omega
      | succ b =>
        rw [natDigitsGo, natDigitsGo]
        by_cases h : n < 10
        · simp [h]
        · have hd : n / 10 < n := Nat.div_lt_self (by omega) (by omega)
          rw [if_neg h, if_neg h, ih (n / 10) hd a b (by omega) (by omega)]

theorem natDigits_eq (n : Nat) : natDigits n =
    if n < 10 then [digitChar n] else natDigits (n / 10) ++ [digitChar (n % 10)] := by
  rw [natDigits, natDigits, natDigitsGo]
  by_cases h : n < 10
  · simp [h]
  · have hd : n / 10 < n := Nat.div_lt_self (by omega) (by omega)
    rw [if_neg h, if_neg h, natDigitsGo_irrel (n / 10) n (n / 10 + 1) (by omega) (by omega)]

theorem natDigits_ne_nil (n : Nat) : natDigits n ≠ [] := by
  rw [natDigits_eq]
  split <;> simp

theorem natDigits_digits (n : Nat) : ∀ c ∈ natDigits n, isDigitC c = true := by
  induction n using Nat.strong_induction_on with
  | _ n ih =>
    rw [natDigits_eq]
    split
    · intro c hc
      simp only [List.mem_singleton] at hc
      subst hc
      exact isDigitC_digitChar n
    · intro c hc
      rcases List.mem_append.mp hc with h | h
      · exact ih (n / 10) (Nat.div_lt_self (by omega) (by omega)) c h
      · simp only [List.mem_singleton] at h
        subst h
        exact isDigitC_digitChar (n % 10)

theorem digitsToNat_natDigits (n : Nat) : digitsToNat (natDigits n) = n := by
  induction n using Nat.strong_induction_on with
  | _ n ih =>
    rw [natDigits_eq]
    split
    · rename_i h
      simp [digitsToNat, digitVal_digitChar n h]
    · rename_i h
      have hlt : n / 10 < n := Nat.div_lt_self (by omega) (by omega)
      have hmod : digitVal (digitChar (n % 10)) = n % 10 :=
        digitVal_digitChar (n % 10) (Nat.mod_lt n (by omega))
      simp only [digitsToNat, List.foldl_append, List.foldl_cons, List.foldl_nil] at *
      rw [ih (n / 10) hlt, hmod]
      omega

theorem escapeChar_length_pos (c : Char) : 1 ≤ (escapeChar c).length := by
  unfold escapeChar
  split_ifs <;> simp

theorem escapeList_length (s : List Char) : s.length ≤ (escapeList s).length := by
  induction s with
  | nil => simp [escapeList]
  | cons c s2 ih =>
    rw [escapeList]
    have := escapeChar_length_pos c
    simp only [List.length_append, List.length_cons]
    omega

theorem takeWhile_all_append {p : Char → Bool} (l r : List Char)
    (hl : ∀ c ∈ l, p c = true) (hr : ∀ c, r.head? = some c → p c = false) :
    (l ++ r).takeWhile p = l ∧ (l ++ r).dropWhile p = r := by
  induction l with
  | nil =>
    cases r with
    | nil => simp
    | cons c r2 =>
      have hc := hr c (by simp)
      simp [List.takeWhile_cons, List.dropWhile_cons, hc]
  | cons c l2 ih =>
    have hc : p c = true := hl c (by simp)
    have ih2 := ih (fun d hd => hl d (by simp [hd]))
    simp [List.takeWhile_cons, List.dropWhile_cons, hc, ih2.1, ih2.2]

theorem parseNat_natDigits (n : Nat) (rest : List Char) (h : headNotDigit rest = true) :
    parseNat (natDigits n ++ rest) = some (n, rest) := by
  have hr : ∀ c, rest.head? = some c → isDigitC c = false := by
    intro c hc
    cases rest with
    | nil => simp at hc
    | cons d r2 =>
      simp only [List.head?_cons, Option.some.injEq] at hc
      subst hc
      simpa [headNotDigit] using h
  have hsplit := takeWhile_all_append (natDigits n) rest (natDigits_digits n) hr
  rw [parseNat]
  simp only [hsplit.1, hsplit.2]
  rw [if_neg (by simpa using natDigits_ne_nil n)]
  rw [digitsToNat_natDigits]

theorem parseStrBody_escapeChar (c : Char) (tail : List Char) (fuel : Nat) :
    parseStrBody (fuel + 1) (escapeChar c ++ tail) =
      (parseStrBody fuel tail).map (fun p => (c :: p.1, p.2)) := by
  unfold escapeChar
  by_cases h1 : c = '"'
  · subst h1; rw [parseStrBody.eq_def]; simp [unescapeChar]
  · rw [if_neg h1]
    by_cases h2 : c = '\\'
    · subst h2; rw [parseStrBody.eq_def]; simp [unescapeChar]
    · rw [if_neg h2]
      by_cases h3 : c = '\n'
      · subst h3; rw [parseStrBody.eq_def]; simp [unescapeChar]
      · rw [if_neg h3]
        by_cases h4 : c = '\r'
        · subst h4; rw [parseStrBody.eq_def]; simp [unescapeChar]
        · rw [if_neg h4]
          by_cases h5 : c = '\t'
          · subst h5; rw [parseStrBody.eq_def]; simp [unescapeChar]
          · rw [if_neg h5]
            by_cases h6 : c.toNat = 8
            · rw [if_pos h6]
              have hc : Char.ofNat 8 = c := by rw [← h6, Char.ofNat_toNat]
              rw [parseStrBody.eq_def]
              simp [unescapeChar]
              rw [hc]
            · rw [if_neg h6]
              by_cases h7 : c.toNat = 12
              · rw [if_pos h7]
                have hc : Char.ofNat 12 = c := by rw [← h7, Char.ofNat_toNat]
                rw [parseStrBody.eq_def]
                simp [unescapeChar]
                rw [hc]
              · rw [if_neg h7]
                by_cases h8 : c.toNat < 32
                · rw [if_pos h8]
                  have ha : c.toNat / 16 < 16 := by omega
                  have hb : c.toNat % 16 < 16 := by omega
                  have hva := hexVal_hexDigitChar (c.toNat / 16) ha
                  have hvb := hexVal_hexDigitChar (c.toNat % 16) hb
                  rw [parseStrBody.eq_def]
                  simp only [List.cons_append, List.nil_append]
                  rw [if_neg (by decide : ¬ ('\\' : Char) = '"')]
                  simp only [show hexVal '0' = some 0 from by decide, hva, hvb]
                  have harg : ((0 * 16 + 0) * 16 + c.toNat / 16) * 16 + c.toNat % 16
                      = c.toNat := by omega
                  rw [harg, Char.ofNat_toNat]
                  simp
                · rw [if_neg h8]
                  rw [parseStrBody.eq_def]
                  simp [h1, h2]

theorem parseStrBody_escapeList (s rest : List Char) :
    ∀ fuel : Nat, s.length < fuel →
      parseStrBody fuel (escapeList s ++ '"' :: rest) = some (s, rest) := by
  induction s with
  | nil =>
    intro fuel hf
    cases fuel with
    | zero => omega
    | succ f =>
      simp only [escapeList, List.nil_append]
      rw [parseStrBody.eq_def]
      simp
  | cons c s2 ih =>
    intro fuel hf
    cases fuel with
    | zero => omega
    | succ f =>
      rw [escapeList, List.append_assoc, parseStrBody_escapeChar,
        ih f (by simpa using hf)]
      rfl

theorem natDigits_cons (n : Nat) :
    ∃ c cs, natDigits n = c :: cs ∧ isDigitC c = true := by
  cases h : natDigits n with
  | nil => exact absurd h (natDigits_ne_nil n)
  | cons c cs =>
    exact ⟨c, cs, rfl, natDigits_digits n c (by rw [h]; simp)⟩

theorem parseJVal_quote (r : List Char) :
    parseJVal ('"' :: r) = (parseStrBody r.length r).map (fun p => (JVal.jstr p.1, p.2)) := by
  simp [parseJVal.eq_def]

theorem parseJVal_neg (r : List Char) :
    parseJVal ('-' :: r) = (parseNat r).map (fun p => (JVal.jnum (-(p.1 : Int)), p.2)) := by
  simp [parseJVal.eq_def]

theorem parseJVal_digit (c : Char) (r : List Char) (hdig : isDigitC c = true) :
    parseJVal (c :: r) = (parseNat (c :: r)).map (fun p => (JVal.jnum (p.1 : Int), p.2)) := by
  have hc1 : ¬ c = 'n' := by intro he; rw [he] at hdig; exact absurd hdig (by decide)
  have hc2 : ¬ c = 't' := by intro he; rw [he] at hdig; exact absurd hdig (by decide)
  have hc3 : ¬ c = 'f' := by intro he; rw [he] at hdig; exact absurd hdig (by decide)
  have hc4 : ¬ c = '"' := by intro he; rw [he] at hdig; exact absurd hdig (by decide)
  have hc5 : ¬ c = '-' := by intro he; rw [he] at hdig; exact absurd hdig (by decide)
  simp [parseJVal.eq_def, hc1, hc2, hc3, hc4, hc5, hdig]

theorem parseJVal_encode (v : JVal) (rest : List Char) (h : headNotDigit rest = true) :
    parseJVal (encodeJVal v ++ rest) = some (v, rest) := by
  cases v with
  | jnull => simp [encodeJVal, parseJVal.eq_def]
  | jbool b => cases b <;> simp [encodeJVal, parseJVal.eq_def]
  | jstr s =>
    have he : encodeJVal (JVal.jstr s) ++ rest = '"' :: (escapeList s ++ '"' :: rest) := by
      simp [encodeJVal, encodeStr]
    rw [he, parseJVal_quote]
    rw [parseStrBody_escapeList s rest _ (by
      have := escapeList_length s
      simp only [List.length_append, List.length_cons]
      omega)]
    rfl
  | jnum n =>
    rcases Int.lt_or_le n 0 with hn | hn
    · have he : encodeJVal (JVal.jnum n) ++ rest = '-' :: (natDigits (-n).toNat ++ rest) := by
        show intRepr n ++ rest = _
        rw [intRepr, if_pos hn]
        rfl
      rw [he, parseJVal_neg, parseNat_natDigits _ _ h]
      simp only [Option.map_some']
      have h2 : -((((-n).toNat : Nat)) : Int) = n := by omega
      rw [h2]
    · have he : encodeJVal (JVal.jnum n) ++ rest = natDigits n.toNat ++ rest := by
        show intRepr n ++ rest = _
        rw [intRepr, if_neg (by omega : ¬ n < 0)]
      obtain ⟨c, cs, hnd, hdig⟩ := natDigits_cons n.toNat
      have he2 : encodeJVal (JVal.jnum n) ++ rest = c :: (cs ++ rest) := by
        rw [he, hnd]
        rfl
      rw [he2, parseJVal_digit c _ hdig]
      rw [show c :: (cs ++ rest) = natDigits n.toNat ++ rest by rw [hnd]; rfl]
      rw [parseNat_natDigits _ _ h]
      simp only [Option.map_some']
      have h2 : ((n.toNat : Nat) : Int) = n := by omega
      rw [h2]

theorem parseField_encode (k : String) (v : JVal) (rest : List Char)
    (h : headNotDigit rest = true) :
    parseField (encodeField k v ++ rest) = some ((k, v), rest) := by
  have he : encodeField k v ++ rest =
      '"' :: (escapeList k.toList ++ '"' :: (':' :: ' ' :: (encodeJVal v ++ rest))) := by
    simp [encodeField, encodeStr]
  rw [he]
  generalize hL : escapeList k.toList ++ '"' :: (':' :: ' ' :: (encodeJVal v ++ rest)) = L
  have hps : parseStrBody L.length L
      = some (k.toList, ':' :: ' ' :: (encodeJVal v ++ rest)) := by
    rw [← hL]
    exact parseStrBody_escapeList k.toList _ _ (by
      have := escapeList_length k.toList
      simp only [List.length_append, List.length_cons]
      omega)
  simp [parseField.eq_def, hps, parseJVal_encode v rest h]

theorem parseFieldsAux_encode (fields : Message) (hne : fields ≠ []) :
    ∀ (fuel : Nat) (rest : List Char), fields.length ≤ fuel →
      parseFieldsAux fuel (encodeFields fields ++ rbrace :: rest) = some (fields, rest) := by
  induction fields with
  | nil => exact absurd rfl hne
  | cons kv tl ih =>
    intro fuel rest hfuel
    cases fuel with
    | zero => simp at hfuel
    | succ f =>
      cases tl with
      | nil =>
        rw [show encodeFields [kv] = encodeField kv.1 kv.2 from rfl]
        rw [parseFieldsAux]
        rw [parseField_encode kv.1 kv.2 (rbrace :: rest) (by rw [headNotDigit]; decide)]
        simp
      | cons kv2 tl2 =>
        rw [show encodeFields (kv :: kv2 :: tl2)
            = encodeField kv.1 kv.2 ++ ',' :: ' ' :: encodeFields (kv2 :: tl2) from rfl]
        rw [List.append_assoc]
        rw [parseFieldsAux]
        rw [show (',' :: ' ' :: encodeFields (kv2 :: tl2)) ++ rbrace :: rest
            = ',' :: ' ' :: (encodeFields (kv2 :: tl2) ++ rbrace :: rest) from rfl]
        rw [parseField_encode kv.1 kv.2 _ (by rw [headNotDigit]; decide)]
        have hr : ¬ (',' : Char) = rbrace := by decide
        simp only [hr, if_neg, if_false, reduceIte]
        rw [ih (by simp) f rest (by simpa using hfuel)]
        rfl

theorem encodeField_head (k : String) (v : JVal) :
    ∃ t, encodeField k v = '"' :: t := by
  refine ⟨escapeList k.toList ++ ['"'] ++ (':' :: ' ' :: encodeJVal v), ?_⟩
  simp [encodeField, encodeStr]

theorem encodeFields_head (m : Message) (hm : m ≠ []) :
    ∃ t, encodeFields m = '"' :: t := by
  cases m with
  | nil => exact absurd rfl hm
  | cons kv tl =>
    cases tl with
    | nil =>
      obtain ⟨t, ht⟩ := encodeField_head kv.1 kv.2
      exact ⟨t, by rw [show encodeFields [kv] = encodeField kv.1 kv.2 from rfl, ht]⟩
    | cons kv2 tl2 =>
      obtain ⟨t, ht⟩ := encodeField_head kv.1 kv.2
      refine ⟨t ++ ',' :: ' ' :: encodeFields (kv2 :: tl2), ?_⟩
      rw [show encodeFields (kv :: kv2 :: tl2)
          = encodeField kv.1 kv.2 ++ ',' :: ' ' :: encodeFields (kv2 :: tl2) from rfl, ht]
      rfl

theorem encodeFields_length (m : Message) : m.length ≤ (encodeFields m).length := by
  induction m with
  | nil => simp [encodeFields]
  | cons kv tl ih =>
    obtain ⟨t, ht⟩ := encodeField_head kv.1 kv.2
    cases tl with
    | nil =>
      rw [show encodeFields [kv] = encodeField kv.1 kv.2 from rfl, ht]
      simp
    | cons kv2 tl2 =>
      rw [show encodeFields (kv :: kv2 :: tl2)
          = encodeField kv.1 kv.2 ++ ',' :: ' ' :: encodeFields (kv2 :: tl2) from rfl, ht]
      simp only [List.length_cons, List.cons_append, List.length_append] at *
      omega

theorem loads_quote_body (t : List Char) :
    loads (lbrace :: '"' :: (t ++ [rbrace])) =
      match parseFieldsAux ('"' :: (t ++ [rbrace])).length ('"' :: (t ++ [rbrace])) with
      | some (m, []) => some m
      | _ => none := by
  rw [loads.eq_def]
  simp [lbrace, rbrace]

theorem loads_dumps (m : Message) : loads (dumps m) = some m := by
  cases m with
  | nil => decide
  | cons kv tl =>
    have hne : (kv :: tl : Message) ≠ [] := by simp
    obtain ⟨t, ht⟩ := encodeFields_head (kv :: tl) hne
    rw [dumps, ht]
    simp only [List.cons_append]
    rw [loads_quote_body]
    rw [show '"' :: (t ++ [rbrace]) = encodeFields (kv :: tl) ++ rbrace :: [] from by
      rw [ht]; rfl]
    rw [parseFieldsAux_encode (kv :: tl) hne _ []
      (by
        have h1 := encodeFields_length (kv :: tl)
        simp only [List.length_append, List.length_cons] at h1 ⊢
        omega)]

theorem loadsAll_map_dumps (msgs : List Message) :
    loadsAll (msgs.map dumps) = some msgs := by
  induction msgs with
  | nil => rfl
  | cons m tl ih =>
    rw [List.map_cons, loadsAll, loads_dumps, ih]

theorem assocGet_set_self {α : Type} (l : List (String × α)) (k : String) (v : α) :
    assocGet (assocSet l k v) k = some v := by
  induction l with
  | nil => simp [assocSet, assocGet]
  | cons kv rest ih =>
    by_cases h : kv.1 = k
    · simp [assocSet, assocGet, h]
    · simp [assocSet, assocGet, h, ih]

theorem assocGet_set_ne {α : Type} (l : List (String × α)) (k k2 : String) (v : α)
    (h : k2 ≠ k) : assocGet (assocSet l k v) k2 = assocGet l k2 := by
  have hk2 : ¬ k = k2 := fun he => h he.symm
  induction l with
  | nil => simp [assocSet, assocGet, hk2]
  | cons kv rest ih =>
    by_cases hk : kv.1 = k
    · simp [assocSet, assocGet, hk, hk2]
    · by_cases hkk : kv.1 = k2
      · simp [assocSet, assocGet, hk, hkk, h]
      · simp [assocSet, assocGet, hk, hkk, ih]

theorem assocGet_erase_self {α : Type} (l : List (String × α)) (k : String) :
    assocGet (assocErase l k) k = none := by
  induction l with
  | nil => simp [assocErase, assocGet]
  | cons kv rest ih =>
    by_cases h : kv.1 = k
    · simpa [assocErase, h] using ih
    · simpa [assocErase, assocGet, h] using ih

theorem lrange_all (d : RedisData) (key : String) :
    d.lrange key 0 (-1) = (assocGet d.lists key).getD [] := by
  rw [RedisData.lrange]
  cases hl : (assocGet d.lists key).getD [] with
  | nil => simp
  | cons x xs =>
    simp only [List.length_cons]
    rw [if_neg (by omega : ¬ (0:Int) < 0)]
    rw [if_pos (by omega : (-1:Int) < 0)]
    rw [if_neg (by push_cast; omega : ¬ ((((xs.length + 1 : Nat) : Int)) + (-1) < 0))]
    have h3 : ((((xs.length + 1 : Nat) : Int)) + (-1)).toNat = xs.length := by omega
    rw [h3]
    have h4 : ((0:Int)).toNat = 0 := rfl
    rw [h4, List.drop_zero]
    rw [show xs.length + 1 = (x :: xs).length from by simp]
    exact List.take_length _

theorem lrange_last (d : RedisData) (key : String) (k : Nat) (hk : 0 < k) :
    d.lrange key (-(k : Int)) (-1) =
      ((assocGet d.lists key).getD []).drop (((assocGet d.lists key).getD []).length - k) := by
  rw [RedisData.lrange]
  cases hl : (assocGet d.lists key).getD [] with
  | nil => simp
  | cons x xs =>
    simp only [List.length_cons]
    rw [if_pos (by omega : (-(k:Int)) < 0)]
    rw [if_pos (by omega : (-1:Int) < 0)]
    rw [if_neg (by push_cast; omega :
      ¬ ((((xs.length + 1 : Nat) : Int)) + (-1)
        < max ((((xs.length + 1 : Nat) : Int)) + (-(k:Int))) 0))]
    have h3 : ((((xs.length + 1 : Nat) : Int)) + (-1)).toNat = xs.length := by omega
    have h4 : (max ((((xs.length + 1 : Nat) : Int)) + (-(k:Int))) 0).toNat
        = (xs.length + 1) - k := by omega
    rw [h3, h4]
    rw [show xs.length + 1 = (x :: xs).length from by simp]
    rw [List.take_length]

theorem appendAll_lists (session_id : String) (msgs : List Message) :
    ∀ d : RedisData, ∃ d2 : RedisData,
      appendAll (some d) session_id msgs = some d2 ∧
      (assocGet d2.lists (IntraSessionMemoryStore.getKey session_id)).getD []
        = (assocGet d.lists (IntraSessionMemoryStore.getKey session_id)).getD []
            ++ msgs.map dumps := by
  induction msgs with
  | nil => intro d; exact ⟨d, rfl, by simp⟩
  | cons m tl ih =>
    intro d
    obtain ⟨d2, h1, h2⟩ :=
      ih (d.rpush (IntraSessionMemoryStore.getKey session_id) (dumps m))
    refine ⟨d2, ?_, ?_⟩
    · rw [appendAll, IntraSessionMemoryStore.save_message]
      exact h1
    · rw [h2]
      rw [show (d.rpush (IntraSessionMemoryStore.getKey session_id) (dumps m)).lists
          = assocSet d.lists (IntraSessionMemoryStore.getKey session_id)
              ((assocGet d.lists (IntraSessionMemoryStore.getKey session_id)).getD []
                ++ [dumps m]) from rfl]
      rw [assocGet_set_self]
      simp

/-- C7.  For every session_id and every finite sequence of messages
appended in order via `save_message` into a session whose key is initially
absent, `get_messages` with no limit returns exactly that sequence in
insertion order (each message JSON-encoded on append and JSON-decoded on
read), and with a positive `limit` it returns exactly the last `limit`
entries in insertion order. -/
theorem c7_append_then_list_roundtrip (d : RedisData) (session_id : String)
    (msgs : List Message) (l : Nat)
    (hkey : assocGet d.lists (IntraSessionMemoryStore.getKey session_id) = none)
    (hl : 0 < l) :
    IntraSessionMemoryStore.get_messages (appendAll (some d) session_id msgs)
        session_id none = msgs ∧
    IntraSessionMemoryStore.get_messages (appendAll (some d) session_id msgs)
        session_id (some l) = msgs.drop (msgs.length - l) := by
  obtain ⟨d2, hd2, hget⟩ := appendAll_lists session_id msgs d
  rw [hkey] at hget
  simp only [Option.getD_none, List.nil_append] at hget
  rw [hd2]
  constructor
  · rw [IntraSessionMemoryStore.get_messages]
    rw [lrange_all, hget, loadsAll_map_dumps]
    rfl
  · rw [IntraSessionMemoryStore.get_messages]
    rw [if_pos (by omega : l ≠ 0)]
    rw [lrange_last d2 _ l hl, hget]
    rw [← List.map_drop]
    rw [loadsAll_map_dumps]
    simp

/-- Witness for C7 at a concrete store and message sequence exercising
string escapes, negative numbers, booleans and null. -/
theorem c7_append_then_list_roundtrip_witness :
    IntraSessionMemoryStore.get_messages
        (appendAll (some ⟨[], []⟩) "s1"
          [[("type", .jstr ("user").toList),
            ("content", .jstr (("a\"b\\c\n").toList ++ [Char.ofNat 7]))],
           [("n", .jnum (-42)), ("b", .jbool true), ("z", .jnull)],
           [("content", .jstr ("hello world").toList)]])
        "s1" none =
      [[("type", .jstr ("user").toList),
        ("content", .jstr (("a\"b\\c\n").toList ++ [Char.ofNat 7]))],
       [("n", .jnum (-42)), ("b", .jbool true), ("z", .jnull)],
       [("content", .jstr ("hello world").toList)]] ∧
    IntraSessionMemoryStore.get_messages
        (appendAll (some ⟨[], []⟩) "s1"
          [[("type", .jstr ("user").toList),
            ("content", .jstr (("a\"b\\c\n").toList ++ [Char.ofNat 7]))],
           [("n", .jnum (-42)), ("b", .jbool true), ("z", .jnull)],
           [("content", .jstr ("hello world").toList)]])
        "s1" (some 2) =
      [[("n", .jnum (-42)), ("b", .jbool true), ("z", .jnull)],
       [("content", .jstr ("hello world").toList)]] := by
  have h := c7_append_then_list_roundtrip ⟨[], []⟩ "s1"
    [[("type", .jstr ("user").toList),
      ("content", .jstr (("a\"b\\c\n").toList ++ [Char.ofNat 7]))],
     [("n", .jnum (-42)), ("b", .jbool true), ("z", .jnull)],
     [("content", .jstr ("hello world").toList)]]
    2 rfl (by decide)
  exact ⟨h.1, h.2⟩

/-- Shared helper: the blind-upsert path of `set_preferences` always
fails — its update document names `version` under both `$inc` and
`$setOnInsert`, which MongoDB rejects, and the store's `except` turns the
raised error into `False` with no write and no cache change. -/
theorem set_preferences_blind_fails (cfg : MemoryConfig) (cache : Option CacheData)
    (coll : List MDoc) (user_id : String) (preferences : List (String × BPrim)) :
    UserPreferenceStore.set_preferences cfg cache (some coll) user_id preferences none
      = (false, some coll, cache) := rfl

/-- Shared helper: `save_conversation` always fails — its update document
names `created_at` under both `$set` (inside the full document) and
`$setOnInsert`, which MongoDB rejects, and the store's `except` turns the
raised error into `False` with no write. -/
theorem save_conversation_fails (db : Option (List MDoc)) (user_id session_id : String)
    (messages : List Message) (now : Int) :
    InterSessionMemoryStore.save_conversation db user_id session_id messages now
      = (false, db) := by
  cases db <;> rfl

/-- C2 (code_bug).  The claim says a blind upsert (`expected_version`
null) inserts a new document at version 1 and that every successful set
increments the version; in the code the blind-upsert update document puts
`version` under both `$inc` and `$setOnInsert`, so MongoDB rejects it
(ConflictingUpdateOperators) and `set_preferences` returns `False` leaving
the collection and cache unchanged — no blind upsert ever inserts or
increments anything. -/
theorem c2_blind_upsert_always_fails (cfg : MemoryConfig) (cache : Option CacheData)
    (coll : List MDoc) (user_id : String) (preferences : List (String × BPrim)) :
    UserPreferenceStore.set_preferences cfg cache (some coll) user_id preferences none
      = (false, some coll, cache) :=
  set_preferences_blind_fails cfg cache coll user_id preferences

/-- C4 (code_bug).  The claim says `created_at` is set only on the initial
insert while `updated_at` is refreshed on every save; in the code the
update document `$set`s the whole conversation document — `created_at`
included — while also naming `created_at` under `$setOnInsert`, so MongoDB
rejects the update (ConflictingUpdateOperators) and `save_conversation`
returns `False` for every call, storing nothing at all. -/
theorem c4_save_conversation_always_fails (coll : List MDoc) (user_id session_id : String)
    (messages : List Message) (now : Int) :
    InterSessionMemoryStore.save_conversation (some coll) user_id session_id messages now
      = (false, some coll) :=
  save_conversation_fails (some coll) user_id session_id messages now

/-- C6 (code_bug).  The claim says every public memory operation —
`queue_extraction_job` included — returns empty or false without raising;
but `queue_extraction_job` reads `self.config.ENABLE_PREF_EXTRACTION`
outside any `try`, and `MemoryConfig.__init__` never assigns that
attribute, so the call raises `AttributeError` to the caller regardless of
backend availability.  (`memoryConfigHasAttr` records the exact attribute
list the constructor assigns.) -/
theorem c6_queue_extraction_job_raises (cfg : MemoryConfig) (redis : Option RedisData)
    (user_id session_id : String) :
    UserPreferenceStore.queue_extraction_job cfg redis user_id session_id
        = .error .attributeError ∧
      memoryConfigHasAttr "ENABLE_PREF_EXTRACTION" = false ∧
      memoryConfigHasAttr "PREF_QUEUE" = false :=
  ⟨rfl, by decide, by decide⟩

/-- C1 (counterexample).  At a concrete state whose intra-session log
holds one message and whose MongoDB is unavailable, the claim instance
"if saving fails, the call returns false and a subsequent list still
returns the session's messages" is false: the call does return false, but
`finalize_session` clears the Redis log unconditionally (step 4 of the
source), so the subsequent list is empty. -/
theorem c1_counterexample :
    ¬ ((ProductionMemoryManager.finalize_session cfgDefault c1state "u1" "s1" 0
          (fun _ => some [0]) "p1").1 = false →
        IntraSessionMemoryStore.get_messages
          (ProductionMemoryManager.finalize_session cfgDefault c1state "u1" "s1" 0
            (fun _ => some [0]) "p1").2.redis "s1" none = [c1msg]) := by
  decide

/-- C1 (amended).  For every state whose intra-session log is non-empty,
`finalize_session` returns false (the save to MongoDB always fails, see
C4) and the intra-session log IS cleared: a subsequent list returns the
empty list, not the session's messages. -/
theorem c1_amended_clears_on_failure (cfg : MemoryConfig) (st : SysState)
    (user_id session_id : String) (now : Int) (embed : List Char → Option (List Int))
    (newId : String)
    (hmsgs : IntraSessionMemoryStore.get_messages st.redis session_id none ≠ []) :
    (ProductionMemoryManager.finalize_session cfg st user_id session_id now embed
        newId).1 = false ∧
    IntraSessionMemoryStore.get_messages
        (ProductionMemoryManager.finalize_session cfg st user_id session_id now embed
          newId).2.redis session_id none = [] := by
  obtain ⟨d, hd⟩ : ∃ d, st.redis = some d := by
    cases hr : st.redis with
    | none =>
      rw [hr] at hmsgs
      exact absurd rfl hmsgs
    | some d => exact ⟨d, rfl⟩
  have hfin : ProductionMemoryManager.finalize_session cfg st user_id session_id now
      embed newId
      = (false,
          { st with redis := some (d.del (IntraSessionMemoryStore.getKey session_id)) }) := by
    rw [ProductionMemoryManager.finalize_session]
    rw [if_neg (by simpa [List.isEmpty_iff] using hmsgs)]
    rw [save_conversation_fails]
    simp only [Bool.false_and, if_false]
    rw [hd]
    rfl
  rw [hfin]
  refine ⟨rfl, ?_⟩
  rw [IntraSessionMemoryStore.get_messages]
  rw [lrange_all]
  rw [show (d.del (IntraSessionMemoryStore.getKey session_id)).lists
      = assocErase d.lists (IntraSessionMemoryStore.getKey session_id) from rfl]
  rw [assocGet_erase_self]
  rfl

/-- Witness for the amended C1 at the concrete state of the
counterexample. -/
theorem c1_amended_clears_on_failure_witness :
    (ProductionMemoryManager.finalize_session cfgDefault c1state "u1" "s1" 0
        (fun _ => some [0]) "p1").1 = false ∧
    IntraSessionMemoryStore.get_messages
        (ProductionMemoryManager.finalize_session cfgDefault c1state "u1" "s1" 0
          (fun _ => some [0]) "p1").2.redis "s1" none = [] :=
  c1_amended_clears_on_failure cfgDefault c1state "u1" "s1" 0 (fun _ => some [0]) "p1"
    (by decide)

/-- C9 (counterexample).  At a concrete store holding user `u1` at
version 3 with `budget = 1000`, `update_preference` persists nothing at
all: the blind upsert it delegates to is rejected by MongoDB
(`version` under both `$inc` and `$setOnInsert`), the call returns false,
the collection is unchanged, and the stored preferences mapping contains
neither `_version` nor the new value — refuting the claim that the write
persists a `_version`-decorated mapping. -/
theorem c9_counterexample :
    ¬ ∃ p : List (String × BPrim),
        (∃ doc,
          findFirst ((UserPreferenceStore.update_preference cfgDefault none (some c9coll)
              "u1" "budget" (.pint 2000)).2.1.getD []) [("user_id", bstr "u1")]
            = some doc ∧
          assocGet doc "preferences" = some (.bmap p)) ∧
        assocGet p "_version" = some (BPrim.pint 3) ∧
        assocGet p "budget" = some (BPrim.pint 2000) := by
  rintro ⟨p, ⟨doc, hfind, hpref⟩, hv, hb⟩
  rw [show (UserPreferenceStore.update_preference cfgDefault none (some c9coll)
      "u1" "budget" (.pint 2000)).2.1.getD [] = c9coll from by decide] at hfind
  rw [show findFirst c9coll [("user_id", bstr "u1")]
      = some [("user_id", bstr "u1"),
              ("preferences", .bmap [("budget", .pint 1000)]),
              ("version", bint 3)] from by decide] at hfind
  have hdoc : doc = [("user_id", bstr "u1"),
      ("preferences", .bmap [("budget", .pint 1000)]),
      ("version", bint 3)] := by
    injection hfind with h1
    exact h1.symm
  subst hdoc
  rw [show assocGet [("user_id", bstr "u1"),
      ("preferences", BVal.bmap [("budget", .pint 1000)]),
      ("version", bint 3)] "preferences"
      = some (BVal.bmap [("budget", BPrim.pint 1000)]) from by decide] at hpref
  have hp : p = [("budget", BPrim.pint 1000)] := by
    injection hpref with h1
    injection h1 with h2
    exact h2.symm
  subst hp
  exact absurd hv (by decide)

/-- C9 (amended).  For a user whose preference document exists at version
`v`, `update_preference` builds the write payload through the read-through
`get_preferences` — so the mapping it passes to `set_preferences` carries
the extra `_version = v` key (not stripped) together with the new key, the
other keys unchanged — but the blind upsert it then performs is always
rejected by MongoDB (`version` under both `$inc` and `$setOnInsert`), so
nothing is persisted: the call returns false and the collection is
unchanged. -/
theorem c9_amended_version_leak_but_no_persist (cfg : MemoryConfig) (coll : List MDoc)
    (doc : MDoc) (p : List (String × BPrim)) (v : Int) (u key : String) (value : BPrim)
    (hfind : findFirst coll [("user_id", bstr u)] = some doc)
    (hprefs : assocGet doc "preferences" = some (.bmap p))
    (hver : assocGet doc "version" = some (bint v))
    (hkey : key ≠ "_version") :
    UserPreferenceStore.update_preference cfg none (some coll) u key value
        = (false, some coll, none) ∧
    (UserPreferenceStore.get_preferences cfg none (some coll) u).1
        = some (assocSet p "_version" (.pint v)) ∧
    assocGet (assocSet (assocSet p "_version" (.pint v)) key value) "_version"
        = some (BPrim.pint v) ∧
    assocGet (assocSet (assocSet p "_version" (.pint v)) key value) key = some value ∧
    (∀ k2, k2 ≠ key → k2 ≠ "_version" →
      assocGet (assocSet (assocSet p "_version" (.pint v)) key value) k2
        = assocGet p k2) := by
  have hget : UserPreferenceStore.get_preferences cfg none (some coll) u
      = (some (assocSet p "_version" (.pint v)), none) := by
    rw [UserPreferenceStore.get_preferences]
    simp [hfind, hprefs, hver, bint]
  refine ⟨?_, by rw [hget], ?_, ?_, ?_⟩
  · rw [UserPreferenceStore.update_preference]
    rw [hget]
    exact set_preferences_blind_fails cfg none coll u _
  · rw [assocGet_set_ne _ _ _ _ (fun he => hkey he.symm), assocGet_set_self]
  · rw [assocGet_set_self]
  · intro k2 h1 h2
    rw [assocGet_set_ne _ _ _ _ h1, assocGet_set_ne _ _ _ _ h2]

/-- Witness for the amended C9 at the concrete one-user store. -/
theorem c9_amended_version_leak_but_no_persist_witness :
    UserPreferenceStore.update_preference cfgDefault none (some c9coll) "u1" "budget"
        (.pint 2000) = (false, some c9coll, none) ∧
    (UserPreferenceStore.get_preferences cfgDefault none (some c9coll) "u1").1
        = some (assocSet [("budget", BPrim.pint 1000)] "_version" (.pint 3)) ∧
    assocGet (assocSet (assocSet [("budget", BPrim.pint 1000)] "_version" (.pint 3))
        "budget" (.pint 2000)) "_version" = some (BPrim.pint 3) ∧
    assocGet (assocSet (assocSet [("budget", BPrim.pint 1000)] "_version" (.pint 3))
        "budget" (.pint 2000)) "budget" = some (BPrim.pint 2000) ∧
    (∀ k2, k2 ≠ "budget" → k2 ≠ "_version" →
      assocGet (assocSet (assocSet [("budget", BPrim.pint 1000)] "_version" (.pint 3))
          "budget" (.pint 2000)) k2 = assocGet [("budget", BPrim.pint 1000)] k2) :=
  c9_amended_version_leak_but_no_persist cfgDefault c9coll
    [("user_id", bstr "u1"), ("preferences", .bmap [("budget", .pint 1000)]),
     ("version", bint 3)]
    [("budget", BPrim.pint 1000)] 3 "u1" "budget" (.pint 2000)
    (by decide) (by decide) (by decide) (by decide)

theorem mem_insertByScore (x y : QPoint × ℚ) (l : List (QPoint × ℚ))
    (h : y ∈ insertByScore x l) : y = x ∨ y ∈ l := by
  induction l with
  | nil => simpa [insertByScore] using h
  | cons z rest ih =>
    rw [insertByScore] at h
    by_cases hc : z.2 < x.2
    · rw [if_pos hc] at h
      rcases List.mem_cons.mp h with h1 | h1
      · exact Or.inl h1
      · exact Or.inr h1
    · rw [if_neg hc] at h
      rcases List.mem_cons.mp h with h1 | h1
      · exact Or.inr (List.mem_cons.mpr (Or.inl h1))
      · rcases ih h1 with h2 | h2
        · exact Or.inl h2
        · exact Or.inr (List.mem_cons.mpr (Or.inr h2))

theorem mem_sortByScoreDesc (l : List (QPoint × ℚ)) (y : QPoint × ℚ)
    (h : y ∈ sortByScoreDesc l) : y ∈ l := by
  have key : ∀ (l2 : List (QPoint × ℚ)) (acc : List (QPoint × ℚ)),
      y ∈ l2.foldl (fun a x => insertByScore x a) acc → y ∈ l2 ∨ y ∈ acc := by
    intro l2
    induction l2 with
    | nil => intro acc h2; exact Or.inr h2
    | cons z rest ih =>
      intro acc h2
      rw [List.foldl_cons] at h2
      rcases ih (insertByScore z acc) h2 with h3 | h3
      · exact Or.inl (by simp [h3])
      · rcases mem_insertByScore z y acc h3 with h4 | h4
        · exact Or.inl (by simp [h4])
        · exact Or.inr h4
  rcases key l [] h with h2 | h2
  · exact h2
  · simp at h2

/-- C5.  `retrieve_similar` never returns an item of another user: the
vector query carries the mandatory `user_id` equality filter, every
emitted item's payload `user_id` equals the caller (and the item's own
`user_id` field is the caller's), and at most `k` of the returned hits
are emitted. -/
theorem c5_retrieve_similar_user_isolation (points : List QPoint)
    (db : Option (List MDoc)) (embed : List Char → Option (List Int))
    (sim : List Int → List Int → ℚ) (user_id : String) (query : List Char)
    (k : Nat) (min_similarity : ℚ) (now : Int) :
    (∀ x ∈ InterSessionMemoryStore.retrieve_similar (some points) db embed sim user_id
        query k min_similarity now,
      x.1.user_id = user_id ∧
      assocGet x.1.metadata "user_id" = some (BPrim.pstr user_id)) ∧
    (InterSessionMemoryStore.retrieve_similar (some points) db embed sim user_id query k
        min_similarity now).length ≤ k := by
  rw [InterSessionMemoryStore.retrieve_similar]
  cases hemb : embed query with
  | none => exact ⟨by simp, by simp⟩
  | some qv =>
    constructor
    · intro x hx
      simp only [List.mem_map] at hx
      obtain ⟨hs, hmem, hfx⟩ := hx
      have hsearch : hs ∈ qdrantSearch points qv user_id (k * 2) min_similarity sim :=
        List.take_subset k _ hmem
      rw [qdrantSearch] at hsearch
      have hcand := mem_sortByScoreDesc _ _ (List.take_subset (k * 2) _ hsearch)
      simp only [List.mem_filterMap] at hcand
      obtain ⟨p, _hp, heq⟩ := hcand
      have huser : assocGet hs.1.payload "user_id" = some (BPrim.pstr user_id) := by
        split at heq
        · rename_i hcond
          cases heq2 : assocGet p.payload "user_id" with
          | none => rw [heq2] at hcond; simp at hcond
          | some b =>
            cases b with
            | pstr u =>
              rw [heq2] at hcond
              simp only [Bool.and_eq_true, decide_eq_true_eq] at hcond
              injection heq with heq3
              rw [← heq3]
              rw [heq2, hcond.1]
            | pnull => rw [heq2] at hcond; simp at hcond
            | pbool b2 => rw [heq2] at hcond; simp at hcond
            | pint n2 => rw [heq2] at hcond; simp at hcond
            | pstrlist l2 => rw [heq2] at hcond; simp at hcond
        · exact absurd heq (by simp)
      constructor
      · rw [← hfx]
      · rw [← hfx]
        exact huser
    · simp only [List.length_map, List.length_take]
      omega

/-- Witness for C5: with two points belonging to users u1 and u2, the
call for u1 returns exactly the u1 item, whose payload and field both
carry u1, and at most one item is emitted. -/
theorem c5_retrieve_similar_user_isolation_witness :
    (c5hit ∈
      InterSessionMemoryStore.retrieve_similar (some c5points) none (fun _ => some [1])
        (fun _ _ => 1) "u1" [] 1 0 0) ∧
    c5hit.1.user_id = "u1" ∧
    assocGet c5hit.1.metadata "user_id" = some (BPrim.pstr "u1") ∧
    (InterSessionMemoryStore.retrieve_similar (some c5points) none (fun _ => some [1])
        (fun _ _ => 1) "u1" [] 1 0 0).length ≤ 1 := by
  have hmem : c5hit ∈
      InterSessionMemoryStore.retrieve_similar (some c5points) none (fun _ => some [1])
        (fun _ _ => 1) "u1" [] 1 0 0 := by decide
  have h := c5_retrieve_similar_user_isolation c5points none (fun _ => some [1])
    (fun _ _ => 1) "u1" [] 1 0 0
  exact ⟨hmem, (h.1 _ hmem).1, (h.1 _ hmem).2, h.2⟩

/-- C8 (counterexample).  At a concrete singleton input the line prefix is
`"- (inter_session, similarity=..."` — the `MemoryType.INTER_SESSION.value`
string — not the `"- (inter, ..."` form the claim states. -/
theorem c8_counterexample :
    ProductionMemoryManager.format_memories_for_context [(c8item, mkRat 17 20)] 800
      ≠ ("Relevant context from past conversations:\n- (inter, similarity=0.85) hello").toList := by
  decide

theorem formatLines_spec (max_chars : Nat) :
    ∀ (mem : List (MemoryItemM × ℚ)) (acc : Nat), mem ≠ [] →
      ∃ n, 1 ≤ n ∧ n ≤ mem.length ∧
        formatLines max_chars acc mem
          = (mem.take n).map (fun x => mkContextLine x.1 x.2) ∧
        (n = mem.length ∨
          max_chars < acc
            + (((mem.take n).map (fun x => mkContextLine x.1 x.2)).map List.length).sum) ∧
        (∀ m, m + 1 < n →
          acc + (((mem.take (m + 1)).map
              (fun x => mkContextLine x.1 x.2)).map List.length).sum ≤ max_chars) := by
  intro mem
  induction mem with
  | nil => intro acc h; exact absurd rfl h
  | cons x rest ih =>
    intro acc _
    rw [formatLines]
    by_cases hc : max_chars < acc + (mkContextLine x.1 x.2).length
    · rw [if_pos hc]
      refine ⟨1, le_refl 1, by simp, by simp, Or.inr (by simpa using hc), ?_⟩
      intro m hm
      omega
    · rw [if_neg hc]
      by_cases hrest : rest = []
      · subst hrest
        refine ⟨1, le_refl 1, by simp, ?_, Or.inl (by simp), ?_⟩
        · rw [formatLines]
          simp
        · intro m hm
          omega
      · obtain ⟨n2, hn1, hn2, hfmt, hstop, hbound⟩ :=
          ih (acc + (mkContextLine x.1 x.2).length) hrest
        refine ⟨n2 + 1, by omega, by simp only [List.length_cons]; omega, ?_, ?_, ?_⟩
        · rw [hfmt]
          simp [List.take_succ_cons]
        · rcases hstop with h2 | h2
          · exact Or.inl (by simp only [List.length_cons]; omega)
          · refine Or.inr ?_
            simp only [List.take_succ_cons, List.map_cons, List.sum_cons] at *
            omega
        · intro m hm
          cases m with
          | zero =>
            have : ¬ max_chars < acc + (mkContextLine x.1 x.2).length := hc
            simp only [List.take_succ_cons, List.take_zero, List.map_cons, List.map_nil,
              List.sum_cons, List.sum_nil]
            omega
          | succ m2 =>
            have hb := hbound m2 (by omega)
            simp only [List.take_succ_cons, List.map_cons, List.sum_cons] at *
            omega

theorem mkContextLine_inter (item : MemoryItemM) (score : ℚ)
    (h : item.memory_type = .INTER_SESSION) :
    mkContextLine item score = ("- (inter_session, similarity=").toList ++ fmt2 score
      ++ (") ").toList ++ item.content.take 200 := by
  rw [mkContextLine, h]
  rw [show MemoryType.INTER_SESSION.value = "inter_session" from rfl]
  rw [show ((("- (").toList ++ ("inter_session" : String).toList)
      ++ (", similarity=").toList) = ("- (inter_session, similarity=").toList from by decide]

/-- C8 (amended).  For a non-empty list of retrieved (inter-session)
memories, `format_memories_for_context` returns the header
`"Relevant context from past conversations:"` followed by one line per
emitted item of the form `"- (inter_session, similarity=S.SS) " +
content[:200]` — `inter_session`, the `MemoryType` value, not `inter` —
joined with newlines; every non-final emitted prefix fits within
`max_chars` and emission stops once the accumulated body exceeds
`max_chars` (the crossing line is kept) or the items run out. -/
theorem c8_amended_format_memories (memories : List (MemoryItemM × ℚ)) (max_chars : Nat)
    (hne : memories ≠ [])
    (htype : ∀ x ∈ memories, (x : MemoryItemM × ℚ).1.memory_type = .INTER_SESSION) :
    ∃ n, 1 ≤ n ∧ n ≤ memories.length ∧
      ProductionMemoryManager.format_memories_for_context memories max_chars
        = ("Relevant context from past conversations:\n").toList ++
            joinSep ['\n'] ((memories.take n).map (fun x =>
              ("- (inter_session, similarity=").toList ++ fmt2 x.2 ++ (") ").toList
                ++ x.1.content.take 200)) ∧
      (n = memories.length ∨
        max_chars < (((memories.take n).map (fun x =>
          ("- (inter_session, similarity=").toList ++ fmt2 x.2 ++ (") ").toList
            ++ x.1.content.take 200)).map List.length).sum) ∧
      (∀ m, m + 1 < n →
        (((memories.take (m + 1)).map (fun x =>
          ("- (inter_session, similarity=").toList ++ fmt2 x.2 ++ (") ").toList
            ++ x.1.content.take 200)).map List.length).sum ≤ max_chars) := by
  obtain ⟨n, hn1, hn2, hfmt, hstop, hbound⟩ := formatLines_spec max_chars memories 0 hne
  have hmapeq : ∀ m : Nat, (memories.take m).map (fun x => mkContextLine x.1 x.2)
      = (memories.take m).map (fun x =>
          ("- (inter_session, similarity=").toList ++ fmt2 x.2 ++ (") ").toList
            ++ x.1.content.take 200) := by
    intro m
    apply List.map_congr_left
    intro a ha
    exact mkContextLine_inter a.1 a.2 (htype a (List.take_subset m memories ha))
  refine ⟨n, hn1, hn2, ?_, ?_, ?_⟩
  · rw [ProductionMemoryManager.format_memories_for_context]
    rw [if_neg (by simpa [List.isEmpty_iff] using hne)]
    rw [hfmt, hmapeq]
  · rcases hstop with h | h
    · exact Or.inl h
    · exact Or.inr (by rw [← hmapeq]; simpa using h)
  · intro m hm
    rw [← hmapeq]
    simpa using hbound m hm

/-- Witness for the amended C8 at the concrete singleton input of the
counterexample. -/
theorem c8_amended_format_memories_witness :
    ∃ n, 1 ≤ n ∧ n ≤ ([(c8item, mkRat 17 20)] : List (MemoryItemM × ℚ)).length ∧
      ProductionMemoryManager.format_memories_for_context [(c8item, mkRat 17 20)] 800
        = ("Relevant context from past conversations:\n").toList ++
            joinSep ['\n'] (([(c8item, mkRat 17 20)].take n).map (fun x =>
              ("- (inter_session, similarity=").toList ++ fmt2 x.2 ++ (") ").toList
                ++ x.1.content.take 200)) ∧
      (n = ([(c8item, mkRat 17 20)] : List (MemoryItemM × ℚ)).length ∨
        800 < ((([(c8item, mkRat 17 20)].take n).map (fun x =>
          ("- (inter_session, similarity=").toList ++ fmt2 x.2 ++ (") ").toList
            ++ x.1.content.take 200)).map List.length).sum) ∧
      (∀ m, m + 1 < n →
        ((([(c8item, mkRat 17 20)].take (m + 1)).map (fun x =>
          ("- (inter_session, similarity=").toList ++ fmt2 x.2 ++ (") ").toList
            ++ x.1.content.take 200)).map List.length).sum ≤ 800) :=
  c8_amended_format_memories [(c8item, mkRat 17 20)] 800 (by simp) (by decide)

/-- C3 (counterexample).  On the S5 conversation the extracted likes are
`["beach"]` only: the claim's `likes = ["beach", "culture"]` fails because
`\bmuseum\b` does not match the plural "museums" (the trailing `s` is a
word character, so the word boundary fails), and neither `art` nor
`history` occurs. -/
theorem c3_counterexample :
    ¬ ((extract_prefs_regex s5msgs).budget = some 1500 ∧
       (extract_prefs_regex s5msgs).departure_city = some (("Boston").toList) ∧
       (extract_prefs_regex s5msgs).likes = [("beach").toList, ("culture").toList]) := by
  decide

/-- C3 (amended).  On the S5 conversation `extract_prefs_regex` yields
budget 1500 and departure city "Boston" as claimed, but
`likes = ["beach"]` — no "culture", since "museums" does not match the
whole-word alternation `museum|art|history`; `avoid_crowds` is absent. -/
theorem c3_amended_extraction :
    extract_prefs_regex s5msgs
      = { budget := some 1500
          departure_city := some (("Boston").toList)
          likes := [("beach").toList]
          avoid_crowds := false } := by
  decide

/-- C10.  An embedding-queue entry whose `content` field is missing or
empty is treated as successfully processed: `process_job` returns `True`
without calling the embedder and without upserting any point, and the
worker loop acknowledges the entry. -/
theorem c10_empty_content_acked (embed : List Char → Option (List Int))
    (upsert : List QPoint → QPoint → Option (List QPoint)) (qdrant : List QPoint)
    (newId : String) (now : Int) (acked : List String) (msg_id : String) (job : EmbJob)
    (h : job.content = none ∨ job.content = some []) :
    EmbeddingWorker.process_job embed upsert qdrant newId now job = (true, qdrant, 0) ∧
    EmbeddingWorker.handle_entry embed upsert qdrant newId now acked msg_id job
      = (qdrant, acked ++ [msg_id]) := by
  have hcont : job.content.getD [] = [] := by
    rcases h with h | h <;> simp [h]
  have hp : EmbeddingWorker.process_job embed upsert qdrant newId now job
      = (true, qdrant, 0) := by
    rw [EmbeddingWorker.process_job, hcont]
    rfl
  refine ⟨hp, ?_⟩
  rw [EmbeddingWorker.handle_entry, hp]
  rfl

/-- Witness for C10 at a concrete job with a missing `content` field. -/
theorem c10_empty_content_acked_witness :
    EmbeddingWorker.process_job (fun _ => none) (fun q p => some (q ++ [p])) [] "id1" 0
        { user_id := some "u1", session_id := some "s1", content := none,
          created_at := none }
      = (true, [], 0) ∧
    EmbeddingWorker.handle_entry (fun _ => none) (fun q p => some (q ++ [p])) [] "id1" 0
        [] "m1"
        { user_id := some "u1", session_id := some "s1", content := none,
          created_at := none }
      = ([], [] ++ ["m1"]) :=
  c10_empty_content_acked (fun _ => none) (fun q p => some (q ++ [p])) [] "id1" 0 [] "m1"
    { user_id := some "u1", session_id := some "s1", content := none, created_at := none }
    (Or.inl rfl)
